import Mathlib

/-!
# Pintos synchronisation primitives (`src/threads/synch.c`)

A shallow embedding of the semaphore, lock, priority-donation and
condition-variable code of `synch.c`.  Threads and locks are referred to by index; the kernel state maps
every index to the fields of `struct thread` and `struct lock` that `synch.c`
reads and writes.  `int` fields are `Int`, the `unsigned value` of a semaphore
is a `Nat` below `2 ^ 32` whose increment wraps.
-/

namespace Synch

/-! ## Data model -/

/-- Index of a `struct thread`. -/
abbrev Tid := Nat

/-- Index of a `struct lock`. -/
abbrev Lid := Nat

/-- Modulus of the C type `unsigned` (32 bits on the target). -/
def UINT_MOD : Nat := 4294967296

/-- The fields of `struct semaphore`: `value` and the `waiters` list (front first). -/
structure Semaphore where
  value : Nat
  waiters : List Tid
deriving DecidableEq

/-- The fields of `struct lock`; `holder = none` is `NULL`. -/
structure Lock where
  holder : Option Tid
  semaphore : Semaphore
  max_val : Int
deriving DecidableEq

/-- The fields of `struct thread` used by `synch.c`; `wait_lock = none` is `NULL`. -/
structure Thread where
  priority : Int
  init_priority : Int
  wait_lock : Option Lid
  holding_locks : List Lid
deriving DecidableEq

/-- The memory `synch.c` works on: every thread and every lock. -/
structure Kernel where
  threads : Tid → Thread
  locks : Lid → Lock

/-- Ways in which a call does not return normally. -/
inductive Fault where
  | assertion
  | null_deref
  | out_of_fuel
  | unlinked_elem
deriving DecidableEq

/-- Store to the thread with index `t`. -/
def Kernel.setThread (k : Kernel) (t : Tid) (th : Thread) : Kernel :=
  { k with threads := fun u => if u = t then th else k.threads u }

/-- Store to the lock with index `l`. -/
def Kernel.setLock (k : Kernel) (l : Lid) (lk : Lock) : Kernel :=
  { k with locks := fun m => if m = l then lk else k.locks m }

/-! ## List helpers (`lib/kernel/list.c`) and the priority comparator -/

/-- Modelled from the spec: `compare_priority_func` (threads/thread.c, not among the
sources) is the "priority comparator used to keep every waiter collection sorted" so
that the front is the highest priority; like `compare_sema_func` of `synch.c` it is
the strict "greater than" on the two priorities it reads. -/
def compare_priority_func (pa pb : Int) : Bool := decide (pa > pb)

/-- Modelled from the spec: `list_insert_ordered` of lib/kernel/list.c, which inserts
the element before the first element it is `less` than, so after its equals. -/
def list_insert_ordered {α : Type} (less : α → α → Bool) (x : α) : List α → List α
  | [] => [x]
  | y :: ys => if less x y then x :: y :: ys else y :: list_insert_ordered less x ys

/-- Modelled from the spec: `list_sort` of lib/kernel/list.c, a stable sort into
`less` order ("ties preserve FIFO arrival order"); elements are inserted one by one,
front first, each after its equals. -/
def list_sort {α : Type} (less : α → α → Bool) (xs : List α) : List α :=
  xs.foldl (fun acc x => list_insert_ordered less x acc) []

/-- Modelled from the spec: `list_max` of lib/kernel/list.c on a non-empty list
`first :: rest`: scans front to back and moves to a later element exactly when the
current candidate is `less` than it. -/
def list_max {α : Type} (less : α → α → Bool) (first : α) (rest : List α) : α :=
  rest.foldl (fun m e => if less m e then e else m) first

/-! ## Semaphores -/

/-- Result of `sema_init`. -/
def sema_init (value : Nat) : Semaphore :=
  { value := value, waiters := [] }

/-- Outcome of entering the loop of `sema_down`. -/
inductive DownResult where
  | blocked (s : Semaphore)
  | acquired (s : Semaphore)
deriving DecidableEq

/-- One pass of `sema_down` from its loop test: with `value == 0` the caller is pushed
on the back of `waiters` and blocks (the test is run again when it is resumed);
otherwise `value` is decremented and the call returns. -/
def sema_down (s : Semaphore) (cur : Tid) : DownResult :=
  if s.value = 0 then .blocked { s with waiters := s.waiters ++ [cur] }
  else .acquired { s with value := s.value - 1 }

/-- Result of `sema_try_down`: the semaphore and the returned `success`. -/
def sema_try_down (s : Semaphore) : Semaphore × Bool :=
  if s.value > 0 then ({ s with value := s.value - 1 }, true) else (s, false)

/-- What `sema_up` leaves behind: the semaphore, the thread handed to
`thread_unblock` (if any) and whether `thread_yield` is called. -/
structure UpResult where
  sema : Semaphore
  unblocked : Option Tid
  yields : Bool
deriving DecidableEq

/-- The function `sema_up`; `pri` gives every thread's priority at the time of the call.
`temp` starts as the caller, so with no waiter the final test compares the caller with
itself.  The sorted list of a non-empty `waiters` is never empty; that branch is written
out like the empty one. -/
def sema_up (pri : Tid → Int) (cur : Tid) (s : Semaphore) : UpResult :=
  match s.waiters with
  | [] =>
    { sema := { s with value := (s.value + 1) % UINT_MOD },
      unblocked := none,
      yields := decide (pri cur < pri cur) }
  | w :: ws =>
    match list_sort (fun a b => compare_priority_func (pri a) (pri b)) (w :: ws) with
    | [] =>
      { sema := { value := (s.value + 1) % UINT_MOD, waiters := [] },
        unblocked := none,
        yields := decide (pri cur < pri cur) }
    | temp :: rest =>
      { sema := { value := (s.value + 1) % UINT_MOD, waiters := rest },
        unblocked := some temp,
        yields := decide (pri cur < pri temp) }

/-! ## Locks and priority donation -/

/-- The function `lock_init`. -/
def lock_init (k : Kernel) (lock : Lid) : Kernel :=
  k.setLock lock { holder := none, semaphore := sema_init 1, max_val := -1 }

/-- The function `lock_held_by_current_thread`. -/
def lock_held_by_current_thread (k : Kernel) (cur : Tid) (lock : Lid) : Bool :=
  decide ((k.locks lock).holder = some cur)

/-- The two updates of one activation of `donate_priority` on a lock whose holder is
`owner`: the lock's `max_val`, then the owner's `init_priority` and `priority`. -/
def donate_once (k : Kernel) (cur : Tid) (lock : Lid) (owner : Tid) : Kernel :=
  let k1 :=
    if (k.locks lock).max_val < (k.threads cur).priority then
      k.setLock lock { k.locks lock with max_val := (k.threads cur).priority }
    else k
  if (k1.threads owner).priority < (k1.threads cur).priority then
    let o := k1.threads owner
    let o1 := if o.init_priority = -1 then { o with init_priority := o.priority } else o
    k1.setThread owner { o1 with priority := (k1.threads cur).priority }
  else k1

/-- The function `donate_priority`; `fuel` bounds the depth of the recursion along
`owner->wait_lock`. -/
def donate_priority : Nat → Kernel → Tid → Lid → Except Fault Kernel
  | 0, _, _, _ => .error .out_of_fuel
  | fuel + 1, k, cur, lock =>
    match (k.locks lock).holder with
    | none => .error .null_deref
    | some owner =>
      let k2 := donate_once k cur lock owner
      match (k2.threads owner).wait_lock with
      | none => .ok k2
      | some next => donate_priority fuel k2 cur next

/-- The value `compare_priority_func` compares when `priority_back` hands it the
`list_elem` of a lock: the lock's `max_val`, the reading under which the source's
comment ("find the lock with the largest priority") is meant. -/
def lock_elem_priority (k : Kernel) (l : Lid) : Int := (k.locks l).max_val

/-- The function `priority_back`. -/
def priority_back (k : Kernel) (lock : Lid) : Except Fault Kernel :=
  match (k.locks lock).holder with
  | none => .error .null_deref
  | some owner =>
    let o := k.threads owner
    if o.init_priority = -1 then .ok k
    else
      match o.holding_locks with
      | first :: rest =>
        let m := list_max
          (fun a b => compare_priority_func (lock_elem_priority k a) (lock_elem_priority k b))
          first rest
        .ok (k.setThread owner { o with priority := (k.locks m).max_val })
      | [] =>
        .ok (k.setThread owner { o with priority := o.init_priority, init_priority := -1 })

/-- The memory once the `list_elem` of `lock` has been unlinked from the list it was in. -/
def unlink (k : Kernel) (lock : Lid) : Kernel :=
  { k with threads := fun t =>
      { k.threads t with holding_locks := (k.threads t).holding_locks.erase lock } }

/-- Modelled from the spec: `list_remove` of lib/kernel/list.c, called as
`list_remove (&lock->list_elem)`.  The element of a lock is pushed only by `lock_acquire`,
on the `holding_locks` of the thread that becomes the holder, so that is where it is
linked if it is linked at all.  Linked, it leaves its list.  Not linked (the lock was taken
by `lock_try_acquire`, which pushes nothing, or has no holder), the C call works on `prev`
and `next` fields that belong to no list, never written or left over from an earlier
removal: it has no defined result, which is the fault `unlinked_elem`. -/
def list_remove (k : Kernel) (lock : Lid) : Except Fault Kernel :=
  match (k.locks lock).holder with
  | none => .error .unlinked_elem
  | some owner =>
    if lock ∈ (k.threads owner).holding_locks then .ok (unlink k lock)
    else .error .unlinked_elem

/-- First part of `lock_acquire`: the assertion, `cur->wait_lock = lock` and the
donation when the lock has a holder. -/
def lock_acquire_begin (fuel : Nat) (k : Kernel) (cur : Tid) (lock : Lid) :
    Except Fault Kernel :=
  if lock_held_by_current_thread k cur lock then .error .assertion
  else
    let k1 := k.setThread cur { k.threads cur with wait_lock := some lock }
    match (k1.locks lock).holder with
    | none => .ok k1
    | some _ => donate_priority fuel k1 cur lock

/-- Last part of `lock_acquire`, after `sema_down` has returned. -/
def lock_acquire_finish (k : Kernel) (cur : Tid) (lock : Lid) : Kernel :=
  let k1 := k.setThread cur { k.threads cur with wait_lock := none }
  let k2 := k1.setThread cur
    { k1.threads cur with holding_locks := (k1.threads cur).holding_locks ++ [lock] }
  k2.setLock lock { k2.locks lock with holder := some cur }

/-- The function `lock_acquire` up to the point where the caller either blocks in
`sema_down` (second component `true`) or returns (second component `false`). -/
def lock_acquire (fuel : Nat) (k : Kernel) (cur : Tid) (lock : Lid) :
    Except Fault (Kernel × Bool) :=
  match lock_acquire_begin fuel k cur lock with
  | .error e => .error e
  | .ok k1 =>
    match sema_down (k1.locks lock).semaphore cur with
    | .blocked s => .ok (k1.setLock lock { k1.locks lock with semaphore := s }, true)
    | .acquired s =>
      .ok (lock_acquire_finish (k1.setLock lock { k1.locks lock with semaphore := s }) cur lock,
        false)

/-- The function `lock_try_acquire`: the state and the returned `success`. -/
def lock_try_acquire (k : Kernel) (cur : Tid) (lock : Lid) : Except Fault (Kernel × Bool) :=
  if lock_held_by_current_thread k cur lock then .error .assertion
  else
    let r := sema_try_down (k.locks lock).semaphore
    let k1 := k.setLock lock { k.locks lock with semaphore := r.1 }
    if r.2 then .ok (k1.setLock lock { k1.locks lock with holder := some cur }, true)
    else .ok (k1, false)

/-- First part of `lock_release`, through `sema_up`: the state, the thread that
`sema_up` unblocked and whether `sema_up` ends in `thread_yield`. -/
def lock_release_begin (k : Kernel) (cur : Tid) (lock : Lid) :
    Except Fault (Kernel × Option Tid × Bool) :=
  if lock_held_by_current_thread k cur lock then
    match list_remove k lock with
    | .error e => .error e
    | .ok k1 =>
      match priority_back k1 lock with
      | .error e => .error e
      | .ok k2 =>
        let r := sema_up (fun t => (k2.threads t).priority) cur (k2.locks lock).semaphore
        .ok (k2.setLock lock { k2.locks lock with semaphore := r.sema }, r.unblocked, r.yields)
  else .error .assertion

/-- Last statement of `lock_release`: `lock->holder = NULL`. -/
def lock_release_finish (k : Kernel) (lock : Lid) : Kernel :=
  k.setLock lock { k.locks lock with holder := none }

/-- The function `lock_release` run without interruption. -/
def lock_release (k : Kernel) (cur : Tid) (lock : Lid) : Except Fault Kernel :=
  match lock_release_begin k cur lock with
  | .error e => .error e
  | .ok r => .ok (lock_release_finish r.1 lock)

/-! ## Interleaved execution of `lock_acquire` and `lock_release`

Each thread is either between calls or stopped at one of the points of
`lock_acquire` / `lock_release` where the CPU can pass to another thread:
the loop of `sema_down` (the thread blocks there) and the `thread_yield` at the
end of `sema_up`. -/

/-- Where a thread stands. -/
inductive Pc where
  | idle
  | acq_down (l : Lid)
  | rel_yield (l : Lid)
  | rel_finish (l : Lid)
deriving DecidableEq

/-- The program point a thread is at once `thread_yield` has returned. -/
def Pc.after_yield : Pc → Pc
  | .rel_yield l => .rel_finish l
  | p => p

/-- Whether the thread may lose the CPU at this point without being blocked: between
calls, or inside `thread_yield`. -/
def Pc.may_switch : Pc → Bool
  | .idle => true
  | .rel_yield _ => true
  | _ => false

/-- The kernel memory together with the scheduling state: the running thread, every
thread's program point and blocked flag, and the history variable `owns t l`, set when
`t` completes `lock_acquire (l)` and cleared when `t` calls `lock_release (l)`. -/
structure Sys where
  k : Kernel
  cur : Tid
  pc : Tid → Pc
  blocked : Tid → Bool
  owns : Tid → Lid → Bool

/-- The moves of the interleaved execution. -/
inductive Action where
  | call_acquire (l : Lid)
  | call_release (l : Lid)
  | resume
  | switch (t : Tid)
deriving DecidableEq

/-- One move.  `call_acquire` and `call_release` are made by the running thread between
calls and run the callee up to its next stopping point; `resume` lets the running
thread continue from its stopping point; `switch t` passes the CPU to the ready thread
`t` when the running thread is blocked, between calls or inside `thread_yield`.  A move
that is not enabled, or that fails an assertion, gives `none`. -/
def exec (fuel : Nat) (s : Sys) : Action → Option Sys
  | .call_acquire l =>
    if s.blocked s.cur = false ∧ s.pc s.cur = .idle then
      match lock_acquire_begin fuel s.k s.cur l with
      | .ok k1 =>
        some { s with k := k1, pc := fun t => if t = s.cur then .acq_down l else s.pc t }
      | .error _ => none
    else none
  | .call_release l =>
    if s.blocked s.cur = false ∧ s.pc s.cur = .idle then
      match lock_release_begin s.k s.cur l with
      | .ok r =>
        some { s with
          k := r.1
          pc := fun t =>
            if t = s.cur then (if r.2.2 then .rel_yield l else .rel_finish l) else s.pc t
          blocked := fun t => if r.2.1 = some t then false else s.blocked t
          owns := fun t m => if t = s.cur ∧ m = l then false else s.owns t m }
      | .error _ => none
    else none
  | .resume =>
    if s.blocked s.cur = false then
      match s.pc s.cur with
      | .idle => none
      | .acq_down l =>
        match sema_down (s.k.locks l).semaphore s.cur with
        | .blocked sm =>
          some { s with
            k := s.k.setLock l { s.k.locks l with semaphore := sm }
            blocked := fun t => if t = s.cur then true else s.blocked t }
        | .acquired sm =>
          some { s with
            k := lock_acquire_finish (s.k.setLock l { s.k.locks l with semaphore := sm }) s.cur l
            pc := fun t => if t = s.cur then .idle else s.pc t
            owns := fun t m => if t = s.cur ∧ m = l then true else s.owns t m }
      | .rel_yield l =>
        some { s with pc := fun t => if t = s.cur then .rel_finish l else s.pc t }
      | .rel_finish l =>
        some { s with
          k := lock_release_finish s.k l
          pc := fun t => if t = s.cur then .idle else s.pc t }
    else none
  | .switch t =>
    if s.blocked t = false ∧ (s.blocked s.cur = true ∨ (s.pc s.cur).may_switch = true) then
      some { s with
        cur := t
        pc := fun u => if u = s.cur then (s.pc u).after_yield else s.pc u }
    else none

/-- A sequence of moves. -/
def run (fuel : Nat) : Sys → List Action → Option Sys
  | s, [] => some s
  | s, a :: as =>
    match exec fuel s a with
    | some s1 => run fuel s1 as
    | none => none

/-- Memory in which every thread has the priority `pri t`, has received no donation,
waits on nothing and holds nothing, and every lock is as `lock_init` leaves it. -/
def boot_kernel (pri : Tid → Int) : Kernel :=
  { threads := fun t =>
      { priority := pri t, init_priority := -1, wait_lock := none, holding_locks := [] },
    locks := fun _ => { holder := none, semaphore := sema_init 1, max_val := -1 } }

/-- Start of the interleaved execution: thread `first` runs, every thread is between
calls and ready, nothing is owned. -/
def boot (pri : Tid → Int) (first : Tid) : Sys :=
  { k := boot_kernel pri,
    cur := first,
    pc := fun _ => .idle,
    blocked := fun _ => false,
    owns := fun _ _ => false }

/-- The states reached by the interleaved execution from `boot`. -/
def Reachable (pri : Tid → Int) (first : Tid) (s : Sys) : Prop :=
  ∃ fuel acts, run fuel (boot pri first) acts = some s

/-- Mutual exclusion on lock `l` as the specification states it: at most one thread
owns `l`, `holder` is that thread, and `lock_held_by_current_thread` is true for it
and false for every other thread. -/
def MutexInv (s : Sys) (l : Lid) : Prop :=
  (∀ t u, s.owns t l = true → s.owns u l = true → t = u) ∧
  (∀ t, (s.k.locks l).holder = some t ↔ s.owns t l = true) ∧
  (∀ t, lock_held_by_current_thread s.k t l = true ↔ s.owns t l = true)

/-- What is seen of lock `l` and thread `t` in a state. -/
structure View where
  holder : Option Tid
  value : Nat
  waiters : List Tid
  owns : Bool
  held_by_current : Bool
  holding_locks : List Lid
  at_idle : Bool
deriving DecidableEq

/-- The view of lock `l` from thread `t`. -/
def Sys.view (s : Sys) (t : Tid) (l : Lid) : View :=
  { holder := (s.k.locks l).holder,
    value := (s.k.locks l).semaphore.value,
    waiters := (s.k.locks l).semaphore.waiters,
    owns := s.owns t l,
    held_by_current := lock_held_by_current_thread s.k t l,
    holding_locks := (s.k.threads t).holding_locks,
    at_idle := decide (s.pc t = .idle) }

/-- Priorities of the two threads of the scenario: thread 0 has priority 1, thread 1
has priority 5. -/
def c1_pri : Tid → Int := fun t => if t = 1 then 5 else 1

/-- Thread 0 takes lock 0; thread 1 asks for it, donates and blocks; thread 0 releases,
`sema_up` unblocks thread 1 and yields to it; thread 1 finishes `lock_acquire`, then
stops running between calls; thread 0 finishes `lock_release`. -/
def c1_trace : List Action :=
  [.call_acquire 0, .resume, .switch 1, .call_acquire 0, .resume, .switch 0,
   .call_release 0, .switch 1, .resume, .switch 0, .resume]

/-! ## Wait-for chains and scenarios -/

/-- The wait-for chain that starts at lock `l`: `l` is held by the first owner, who waits
on the next lock, held by the next owner, and so on up to an owner who waits on nothing. -/
def WaitChain (k : Kernel) : Lid → List (Lid × Tid) → Prop
  | _, [] => False
  | l, [p] => p.1 = l ∧ (k.locks l).holder = some p.2 ∧ (k.threads p.2).wait_lock = none
  | l, p :: q :: rest =>
    p.1 = l ∧ (k.locks l).holder = some p.2 ∧ (k.threads p.2).wait_lock = some q.1 ∧
      WaitChain k q.1 (q :: rest)

/-- Successive calls `donate_priority (lock)` by the threads of the list, in order. -/
def donate_all (fuel : Nat) (k : Kernel) (lock : Lid) : List Tid → Except Fault Kernel
  | [] => .ok k
  | t :: ts =>
    match donate_priority fuel k t lock with
    | .ok k1 => donate_all fuel k1 lock ts
    | .error e => .error e

/-- Priorities of the restoration scenarios: thread 1 has priority 5, thread 2 has
priority 10, every other thread (thread 0 in particular) has priority 3. -/
def c5_pri : Tid → Int := fun t => if t = 1 then 5 else if t = 2 then 10 else 3

/-- Thread 0 acquires locks 0, 1 and 2; thread 1 (priority 5) asks for lock 0 and
thread 2 (priority 10) asks for lock 1, both donate and block; thread 0 releases lock 2. -/
def c5_scenario : Except Fault Kernel := do
  let a ← lock_acquire 1 (boot_kernel c5_pri) 0 0
  let b ← lock_acquire 1 a.1 0 1
  let c ← lock_acquire 1 b.1 0 2
  let d ← lock_acquire 1 c.1 1 0
  let e ← lock_acquire 1 d.1 2 1
  lock_release e.1 0 2

/-- Thread 0 (priority 3) acquires locks 0 and 1; thread 2 (priority 10) asks for lock 1,
donates and blocks; thread 0 releases lock 1 and still holds lock 0, which nobody asked for. -/
def c6_scenario : Except Fault Kernel := do
  let a ← lock_acquire 1 (boot_kernel c5_pri) 0 0
  let b ← lock_acquire 1 a.1 0 1
  let c ← lock_acquire 1 b.1 2 1
  lock_release c.1 0 1

/-- Thread 0 has priority -1 and acquires lock 0; thread 1 (priority 5) calls
`donate_priority` on it; thread 0 releases the lock. -/
def c8_scenario : Except Fault Kernel := do
  let a ← lock_acquire 1 (boot_kernel (fun t => if t = 1 then 5 else -1)) 0 0
  let b ← donate_all 1 a.1 0 [1]
  lock_release b 0 0

/-- After `lock_init` of lock 0, thread 0 calls `lock_try_acquire` on it. -/
def c9_scenario : Except Fault (Kernel × Bool) :=
  lock_try_acquire (lock_init (boot_kernel (fun _ => 31)) 0) 0 0

/-- Among the threads of `xs`, `w` has the highest priority and is the earliest of those
that have it: everything before `w` is strictly lower, nothing after `w` is higher. -/
def FirstMax (pri : Tid → Int) (xs : List Tid) (w : Tid) : Prop :=
  ∃ pre post, xs = pre ++ w :: post ∧ (∀ p ∈ pre, pri p < pri w) ∧ (∀ q ∈ post, pri q ≤ pri w)

/-- Priorities of the wake-up scenario: threads 0, 1, 2 have priorities 1, 5, 3. -/
def c2_pri : Tid → Int := fun t => if t = 0 then 1 else if t = 1 then 5 else 3

/-- The threads woken by three successive calls of `sema_up` by thread `cur`. -/
def three_ups (pri : Tid → Int) (cur : Tid) (s : Semaphore) : List (Option Tid) :=
  let r1 := sema_up pri cur s
  let r2 := sema_up pri cur r1.sema
  let r3 := sema_up pri cur r2.sema
  [r1.unblocked, r2.unblocked, r3.unblocked]

/-- What a donation of priority `p` may change from `k` to `k1`: no `wait_lock`,
`holding_locks`, `holder` or semaphore; a thread's priority stays or becomes `p` and
never decreases; a lock's `max_val` never decreases. -/
def Raised (p : Int) (k k1 : Kernel) : Prop :=
  (∀ t, (k1.threads t).wait_lock = (k.threads t).wait_lock ∧
      (k1.threads t).holding_locks = (k.threads t).holding_locks ∧
      (k.threads t).priority ≤ (k1.threads t).priority ∧
      ((k1.threads t).priority = (k.threads t).priority ∨ (k1.threads t).priority = p)) ∧
  (∀ m, (k1.locks m).holder = (k.locks m).holder ∧
      (k1.locks m).semaphore = (k.locks m).semaphore ∧
      (k.locks m).max_val ≤ (k1.locks m).max_val)

/-- Thread 0 (priority 2 after a donation, base 1) holds lock 0; thread 1 (priority 2)
holds lock 1 and is blocked on lock 0; thread 2 has priority 10. -/
def c3_kernel : Kernel :=
  { threads := fun t =>
      if t = 0 then
        { priority := 2, init_priority := 1, wait_lock := none, holding_locks := [0] }
      else if t = 1 then
        { priority := 2, init_priority := -1, wait_lock := some 0, holding_locks := [1] }
      else
        { priority := 10, init_priority := -1, wait_lock := none, holding_locks := [] },
    locks := fun l =>
      if l = 0 then
        { holder := some 0, semaphore := { value := 0, waiters := [1] }, max_val := 2 }
      else
        { holder := some 1, semaphore := { value := 0, waiters := [] }, max_val := -1 } }

/-- Thread 0 (priority 3, no donation received) holds exactly lock 0; threads 1 and 2 have
priorities 5 and 10. -/
def c8_kernel : Kernel :=
  { threads := fun t =>
      if t = 0 then
        { priority := 3, init_priority := -1, wait_lock := none, holding_locks := [0] }
      else
        { priority := c5_pri t, init_priority := -1, wait_lock := none, holding_locks := [] },
    locks := fun l =>
      if l = 0 then
        { holder := some 0, semaphore := { value := 0, waiters := [] }, max_val := -1 }
      else
        { holder := none, semaphore := sema_init 1, max_val := -1 } }

/-! ## Condition variables -/

/-- The memory of one `struct condition`: `cond` is its `waiters` list, front first, each
`struct semaphore_elem` named by the thread in whose `cond_wait` frame it lives; `sema t`
is the `semaphore` field of the element of thread `t`. -/
structure CondMem where
  cond : List Tid
  sema : Tid → Semaphore

/-- The function `cond_init`. -/
def cond_init (m : CondMem) : CondMem :=
  { m with cond := [] }

/-- The function `compare_sema_func` on the elements of threads `a` and `b`; `pri` gives
every thread's priority at the time of the call. -/
def compare_sema_func (pri : Tid → Int) (sema : Tid → Semaphore) (a b : Tid) : Bool :=
  match (sema a).waiters with
  | [] => false
  | thread_a :: _ =>
    match (sema b).waiters with
    | [] => true
    | thread_b :: _ => decide (pri thread_a > pri thread_b)

/-- What `compare_sema_func` ranks an element by: the priority of the thread at the front
of its semaphore's `waiters`, or the bottom rank when no thread is blocked on it. -/
def sema_elem_rank (pri : Tid → Int) (sema : Tid → Semaphore) (e : Tid) : WithBot Int :=
  match (sema e).waiters with
  | [] => ⊥
  | t :: _ => ((pri t : Int) : WithBot Int)

/-- Among the elements of `xs`, `w` has the highest key and is the earliest of those that
have it. -/
def FirstMaxBy {α β : Type} [LinearOrder β] (key : α → β) (xs : List α) (w : α) : Prop :=
  ∃ pre post, xs = pre ++ w :: post ∧ (∀ p ∈ pre, key p < key w) ∧ (∀ q ∈ post, key q ≤ key w)

/-- The first two statements of `cond_wait` after its assertions: `sema_init` of the
caller's element and its `list_insert_ordered` into `cond->waiters`. -/
def cond_wait_enqueue (pri : Tid → Int) (cur : Tid) (m : CondMem) : CondMem :=
  let sema1 : Tid → Semaphore := fun t => if t = cur then sema_init 0 else m.sema t
  { cond := list_insert_ordered (compare_sema_func pri sema1) cur m.cond, sema := sema1 }

/-- The function `cond_wait` run without interruption up to the point where the caller is
suspended: it blocks in `sema_down` on its own semaphore, or, had that semaphore a
positive value, in the final `lock_acquire` (or returns from it). -/
def cond_wait (fuel : Nat) (k : Kernel) (cur : Tid) (m : CondMem) (lock : Lid) :
    Except Fault (Kernel × CondMem) :=
  if lock_held_by_current_thread k cur lock then
    let m1 := cond_wait_enqueue (fun t => (k.threads t).priority) cur m
    match lock_release k cur lock with
    | .error e => .error e
    | .ok k1 =>
      match sema_down (m1.sema cur) cur with
      | .blocked s => .ok (k1, { m1 with sema := fun t => if t = cur then s else m1.sema t })
      | .acquired s =>
        match lock_acquire fuel k1 cur lock with
        | .error e => .error e
        | .ok r => .ok (r.1, { m1 with sema := fun t => if t = cur then s else m1.sema t })
  else .error .assertion

/-- The function `cond_signal`: the memory afterwards and, when an element was popped, that
element with the outcome of the `sema_up` on its semaphore. -/
def cond_signal (k : Kernel) (cur : Tid) (m : CondMem) (lock : Lid) :
    Except Fault (CondMem × Option (Tid × UpResult)) :=
  if lock_held_by_current_thread k cur lock then
    match m.cond with
    | [] => .ok (m, none)
    | w :: ws =>
      match list_sort (compare_sema_func (fun t => (k.threads t).priority) m.sema) (w :: ws) with
      | [] => .ok ({ m with cond := [] }, none)
      | e :: rest =>
        let r := sema_up (fun t => (k.threads t).priority) cur (m.sema e)
        .ok ({ cond := rest, sema := fun t => if t = e then r.sema else m.sema t }, some (e, r))
  else .error .assertion

/-- The function `cond_broadcast`; `fuel` bounds the number of iterations of its loop.  The
second component lists what each call of `cond_signal` returned, in order. -/
def cond_broadcast : Nat → Kernel → Tid → CondMem → Lid →
    Except Fault (CondMem × List (Option (Tid × UpResult)))
  | 0, _, _, m, _ =>
    match m.cond with
    | [] => .ok (m, [])
    | _ :: _ => .error .out_of_fuel
  | fuel + 1, k, cur, m, lock =>
    match m.cond with
    | [] => .ok (m, [])
    | _ :: _ =>
      match cond_signal k cur m lock with
      | .error e => .error e
      | .ok r =>
        match cond_broadcast fuel k cur r.1 lock with
        | .error e => .error e
        | .ok r2 => .ok (r2.1, r.2 :: r2.2)

/-- The fault a call ended with, if it did not return. -/
def fault_of {α : Type} : Except Fault α → Option Fault
  | .error e => some e
  | .ok _ => none

/-! ## Sequences of lock operations -/

/-- The part of `lock_acquire` a thread runs when it is resumed inside `sema_down`: the loop
test again, then either blocking again (second component `true`) or the rest of
`lock_acquire`. -/
def lock_acquire_resume (k : Kernel) (cur : Tid) (lock : Lid) : Kernel × Bool :=
  match sema_down (k.locks lock).semaphore cur with
  | .blocked s => (k.setLock lock { k.locks lock with semaphore := s }, true)
  | .acquired s =>
    (lock_acquire_finish (k.setLock lock { k.locks lock with semaphore := s }) cur lock, false)

/-- The calls of the lock interface, each by a thread `t` on a lock `l`; `wake` is the
resumption of a thread that blocked in `lock_acquire`. -/
inductive LockOp where
  | init (l : Lid)
  | acquire (t : Tid) (l : Lid)
  | wake (t : Tid) (l : Lid)
  | try_acquire (t : Tid) (l : Lid)
  | release (t : Tid) (l : Lid)
deriving DecidableEq

/-- One call run as an atomic step; `none` when the call fails an assertion or faults. -/
def apply_op (fuel : Nat) (k : Kernel) : LockOp → Option Kernel
  | .init l => some (lock_init k l)
  | .acquire t l =>
    match lock_acquire fuel k t l with
    | .ok r => some r.1
    | .error _ => none
  | .wake t l => some (lock_acquire_resume k t l).1
  | .try_acquire t l =>
    match lock_try_acquire k t l with
    | .ok r => some r.1
    | .error _ => none
  | .release t l =>
    match lock_release k t l with
    | .ok k1 => some k1
    | .error _ => none

/-- A sequence of calls, each an atomic step. -/
def run_ops (fuel : Nat) : Kernel → List LockOp → Option Kernel
  | k, [] => some k
  | k, op :: ops =>
    match apply_op fuel k op with
    | some k1 => run_ops fuel k1 ops
    | none => none

/-- The state of a lock's semaphore and holder that the lock interface maintains: the
value is 0 or 1, and 0 whenever the lock has a holder. -/
def LockOk (lk : Lock) : Prop :=
  (lk.semaphore.value = 0 ∨ lk.semaphore.value = 1) ∧
  (lk.holder ≠ none → lk.semaphore.value = 0)

/-- The wait-for chain from lock `l` never ends: `l` belongs to a set of locks each of
which has a holder that waits on a lock of the set (as when the chain runs into a cycle). -/
def NeverEnds (k : Kernel) (l : Lid) : Prop :=
  ∃ S : Lid → Prop, S l ∧
    ∀ m, S m → ∃ o n, (k.locks m).holder = some o ∧ (k.threads o).wait_lock = some n ∧ S n

/-- Two threads each waiting on a lock the other holds: thread 0 holds lock 0 and waits on
lock 1, every other thread (thread 1 in particular) holds lock 1 and waits on lock 0. -/
def c19_deadlock : Kernel :=
  { threads := fun t =>
      if t = 0 then
        { priority := 3, init_priority := -1, wait_lock := some 1, holding_locks := [0] }
      else
        { priority := 5, init_priority := -1, wait_lock := some 0, holding_locks := [1] },
    locks := fun l =>
      if l = 0 then
        { holder := some 0, semaphore := { value := 0, waiters := [1] }, max_val := 5 }
      else
        { holder := some 1, semaphore := { value := 0, waiters := [0] }, max_val := 3 } }

/-- Priorities of the condition-variable scenarios: thread 2 has priority 5, every other
thread has priority 1. -/
def c18_pri : Tid → Int := fun t => if t = 2 then 5 else 1

/-- A condition variable on which thread 1 waits, blocked on its own semaphore. -/
def c18_mem : CondMem :=
  { cond := [1],
    sema := fun t => if t = 1 then { value := 0, waiters := [1] } else sema_init 0 }

/-- Thread 2 (priority 5) acquires lock 0 and calls `cond_wait` on the condition variable
on which thread 1 (priority 1) already waits. -/
def c18_scenario : Except Fault (Kernel × CondMem) := do
  let a ← lock_acquire 1 (boot_kernel c18_pri) 2 0
  cond_wait 1 a.1 2 c18_mem 0

/-- A condition variable with no waiter. -/
def c15_mem : CondMem :=
  { cond := [], sema := fun _ => sema_init 0 }

/-- After `lock_init`, thread 0 takes lock 0 with `lock_try_acquire` and then calls
`lock_release` on it. -/
def c16_scenario : Except Fault Kernel := do
  let a ← c9_scenario
  lock_release a.1 0 0

/-- Thread 1 (priority 1) takes lock 0; thread 2 (priority 5) takes lock 1; thread 1 asks
for lock 1 and blocks; thread 2 releases lock 1, which unblocks thread 1 without a yield
(5 is not below 1), so thread 1 has not run yet and its `wait_lock` is still lock 1. -/
def c19_ops : List LockOp :=
  [.acquire 1 0, .acquire 2 1, .acquire 1 1, .release 2 1]

/-- The state after `c19_ops`. -/
def c19_state : Option Kernel :=
  run_ops 2 (boot_kernel c18_pri) c19_ops

/-! ## Scenarios with changing priorities and half-finished waits -/

/-- Priorities of the tie scenarios: thread 0 has priority 20, threads 1, 2, 3 have 1, 5, 9
and every other thread (thread 4 in particular) has 5. -/
def c13_pri : Tid → Int :=
  fun t => if t = 0 then 20 else if t = 1 then 1 else if t = 2 then 5 else if t = 3 then 9 else 5

/-- Thread 1 takes lock 1 and thread 0 takes lock 0; threads 1, 2, 3 ask for lock 0 in that
order and block. -/
def c2_enqueue_ops : List LockOp :=
  [.acquire 1 1, .acquire 0 0, .acquire 1 0, .acquire 2 0, .acquire 3 0]

/-- After `c2_enqueue_ops`: thread 0 releases lock 0, whose `sema_up` wakes thread 3;
thread 3 is resumed and takes lock 0; thread 4 (priority 5) asks for lock 1, held by thread
1, and donates its priority to thread 1. -/
def c2_ops : List LockOp :=
  c2_enqueue_ops ++ [.release 0 0, .wake 3 0, .acquire 4 1]

/-- The function `cond_wait` up to and including its `lock_release`: the caller's element
is queued and the lock released, the caller has not reached `sema_down` on its own
semaphore yet. -/
def cond_wait_begin (k : Kernel) (cur : Tid) (m : CondMem) (lock : Lid) :
    Except Fault (Kernel × CondMem) :=
  if lock_held_by_current_thread k cur lock then
    let m1 := cond_wait_enqueue (fun t => (k.threads t).priority) cur m
    match lock_release k cur lock with
    | .error e => .error e
    | .ok k1 => .ok (k1, m1)
  else .error .assertion

/-- Thread 1 takes locks 1 and 0 and waits on the condition variable (lock 0); threads 2
and 3 take lock 0 and wait in turn; thread 0 takes lock 0. -/
def c13_three_waiters : Except Fault (Kernel × CondMem) := do
  let a ← lock_acquire 1 (boot_kernel c13_pri) 1 1
  let b ← lock_acquire 1 a.1 1 0
  let c ← cond_wait 1 b.1 1 c15_mem 0
  let d ← lock_acquire 1 c.1 2 0
  let e ← cond_wait 1 d.1 2 c.2 0
  let f ← lock_acquire 1 e.1 3 0
  let g ← cond_wait 1 f.1 3 e.2 0
  let h ← lock_acquire 1 g.1 0 0
  pure (h.1, g.2)

/-- After `c13_three_waiters`: thread 0 signals once; thread 4 (priority 5) asks for lock 1,
held by the waiting thread 1, and donates its priority to it.  The state before the second
signal, with the element the first signal popped. -/
def c13_before_second_signal : Except Fault (Kernel × CondMem × Option Tid) := do
  let s ← c13_three_waiters
  let i ← cond_signal s.1 0 s.2 0
  let j ← lock_acquire 1 s.1 4 1
  pure (j.1, i.1, i.2.map Prod.fst)

/-- The element popped by the second signal of thread 0. -/
def c13_second_signal : Except Fault (Option Tid) := do
  let s ← c13_before_second_signal
  let l ← cond_signal s.1 0 s.2.1 0
  pure (l.2.map Prod.fst)

/-- Priorities of the broadcast scenario: threads 0, 1, 2 have priorities 20, 10, 5 and
every other thread (thread 3 in particular) has 7. -/
def c14_pri : Tid → Int :=
  fun t => if t = 0 then 20 else if t = 1 then 10 else if t = 2 then 5 else 7

/-- Threads 1 and 2 take lock 0 and wait on the condition variable in turn; thread 3 takes
lock 0; thread 0 asks for lock 0 and blocks; thread 3 calls `cond_wait`, queues its element
and releases lock 0, whose `sema_up` wakes thread 0 and yields to it (7 is below 20) before
thread 3 reaches `sema_down`; thread 0 is resumed and takes lock 0. -/
def c14_state : Except Fault (Kernel × CondMem) := do
  let a ← lock_acquire 1 (boot_kernel c14_pri) 1 0
  let b ← cond_wait 1 a.1 1 c15_mem 0
  let c ← lock_acquire 1 b.1 2 0
  let d ← cond_wait 1 c.1 2 b.2 0
  let e ← lock_acquire 1 d.1 3 0
  let f ← lock_acquire 1 e.1 0 0
  let g ← cond_wait_begin f.1 3 d.2 0
  pure ((lock_acquire_resume g.1 0 0).1, g.2)

/-- In `c14_state`, thread 0 calls `cond_broadcast`: the threads whose elements get a
`sema_up`, in order, with their priorities. -/
def c14_broadcast_order : Except Fault (List (Tid × Int)) := do
  let s ← c14_state
  let r ← cond_broadcast 3 s.1 0 s.2 0
  pure (r.2.filterMap (fun o => o.map (fun u => (u.1, (s.1.threads u.1).priority))))

/-- A condition variable with three queued elements: threads 1 and 2 are blocked on theirs,
thread 3 is not blocked on its element yet. -/
def c14_mem : CondMem :=
  { cond := [3, 1, 2],
    sema := fun t =>
      if t = 1 then { value := 0, waiters := [1] }
      else if t = 2 then { value := 0, waiters := [2] }
      else sema_init 0 }

/-! ## A semaphore in use -/

/-- The semaphore a pass of `sema_down` leaves behind. -/
def DownResult.sema : DownResult → Semaphore
  | .blocked s => s
  | .acquired s => s

/-- A semaphore with the priorities of the threads and the list `woken` of the threads that
`sema_up` has unblocked and that have not yet run again inside `sema_down`. -/
structure SemaSys where
  sema : Semaphore
  pri : Tid → Int
  woken : List Tid

/-- The events on a semaphore: a call of `sema_down` by `t`, the resumption of an unblocked
thread `t` at the loop test of `sema_down`, a call of `sema_up` by `cur` (a thread or an
interrupt handler), and a change of the priority of `t`. -/
inductive SemaOp where
  | down (t : Tid)
  | resume (t : Tid)
  | up (cur : Tid)
  | set_priority (t : Tid) (p : Int)
deriving DecidableEq

/-- One event among threads with identifiers below `n`.  A thread that is queued on the
semaphore, or unblocked and not yet resumed, is inside `sema_down` and cannot call it. -/
def sema_exec (n : Nat) (s : SemaSys) : SemaOp → Option SemaSys
  | .down t =>
    if t < n ∧ t ∉ s.sema.waiters ∧ t ∉ s.woken then
      some { s with sema := (sema_down s.sema t).sema }
    else none
  | .resume t =>
    if t ∈ s.woken then
      some { s with sema := (sema_down s.sema t).sema, woken := s.woken.erase t }
    else none
  | .up cur =>
    some { s with
      sema := (sema_up s.pri cur s.sema).sema
      woken := (sema_up s.pri cur s.sema).unblocked.toList ++ s.woken }
  | .set_priority t p =>
    some { s with pri := fun u => if u = t then p else s.pri u }

/-- A sequence of events. -/
def sema_run (n : Nat) : SemaSys → List SemaOp → Option SemaSys
  | s, [] => some s
  | s, op :: ops =>
    match sema_exec n s op with
    | some s1 => sema_run n s1 ops
    | none => none

/-- The semaphore right after `sema_init`. -/
def sema_boot (value : Nat) (pri : Tid → Int) : SemaSys :=
  { sema := sema_init value, pri := pri, woken := [] }

/-- What the events maintain: no thread is queued twice or unblocked twice, no queued thread
is among the unblocked ones, all of them have identifiers below `n`, and while a thread is
queued the value is at most the number of unblocked threads that have not resumed. -/
def SemaOk (n : Nat) (s : SemaSys) : Prop :=
  s.sema.waiters.Nodup ∧ s.woken.Nodup ∧
  (∀ t ∈ s.sema.waiters, t ∉ s.woken) ∧
  (∀ t ∈ s.sema.waiters, t < n) ∧ (∀ t ∈ s.woken, t < n) ∧
  (s.sema.waiters ≠ [] → s.sema.value ≤ s.woken.length)

/-! ## Facts about the list helpers -/

theorem list_insert_ordered_perm {α : Type} (less : α → α → Bool) (x : α) (ys : List α) :
    (list_insert_ordered less x ys).Perm (x :: ys) := by
  induction ys with
  | nil => simp [list_insert_ordered]
  | cons y ys ih =>
    unfold list_insert_ordered
    split
    · exact List.Perm.refl _
    · exact (List.Perm.cons y ih).trans (List.Perm.swap x y ys)

theorem list_sort_fold_perm {α : Type} (less : α → α → Bool) (xs acc : List α) :
    (xs.foldl (fun a x => list_insert_ordered less x a) acc).Perm (acc ++ xs) := by
  induction xs generalizing acc with
  | nil => simp
  | cons x xs ih =>
    simp only [List.foldl_cons]
    refine (ih _).trans ?_
    have h1 : (list_insert_ordered less x acc ++ xs).Perm ((x :: acc) ++ xs) :=
      List.Perm.append_right xs (list_insert_ordered_perm less x acc)
    refine h1.trans ?_
    simpa using (@List.perm_middle _ x acc xs).symm

theorem list_sort_perm {α : Type} (less : α → α → Bool) (xs : List α) :
    (list_sort less xs).Perm xs := by
  simpa [list_sort] using list_sort_fold_perm less xs []

/-- Inserting `x` keeps the front of the sorted list the first of the highest-priority
elements of what has been inserted so far. -/
theorem insert_front_firstMax (pri : Tid → Int) (x w : Tid) (rest done : List Tid)
    (h : FirstMax pri done w) :
    ∃ w1 rest1,
      list_insert_ordered (fun a b => compare_priority_func (pri a) (pri b)) x (w :: rest)
        = w1 :: rest1 ∧ FirstMax pri (done ++ [x]) w1 := by
  obtain ⟨pre, post, hd, hpre, hpost⟩ := h
  by_cases hx : pri x > pri w
  · refine ⟨x, w :: rest, ?_, done, [], by simp, ?_, by simp⟩
    · simp [list_insert_ordered, compare_priority_func, hx]
    · intro p hp
      rw [hd] at hp
      rcases List.mem_append.mp hp with hp | hp
      · exact lt_trans (hpre p hp) hx
      · rcases List.mem_cons.mp hp with hp | hp
        · rw [hp]; exact hx
        · exact lt_of_le_of_lt (hpost p hp) hx
  · refine ⟨w, list_insert_ordered (fun a b => compare_priority_func (pri a) (pri b)) x rest,
      ?_, pre, post ++ [x], by simp [hd], hpre, ?_⟩
    · simp [list_insert_ordered, compare_priority_func, hx]
    · intro q hq
      rcases List.mem_append.mp hq with hq | hq
      · exact hpost q hq
      · simp at hq
        rw [hq]; exact not_lt.mp hx

theorem list_sort_fold_front (pri : Tid → Int) (xs : List Tid) :
    ∀ (w : Tid) (rest done : List Tid), FirstMax pri done w →
      ∃ w1 rest1,
        xs.foldl (fun a x => list_insert_ordered
          (fun a b => compare_priority_func (pri a) (pri b)) x a) (w :: rest) = w1 :: rest1 ∧
        FirstMax pri (done ++ xs) w1 := by
  induction xs with
  | nil => intro w rest done h; exact ⟨w, rest, rfl, by simpa using h⟩
  | cons x xs ih =>
    intro w rest done h
    obtain ⟨w1, rest1, he, hf⟩ := insert_front_firstMax pri x w rest done h
    obtain ⟨w2, rest2, he2, hf2⟩ := ih w1 rest1 (done ++ [x]) hf
    refine ⟨w2, rest2, ?_, by simpa using hf2⟩
    simp only [List.foldl_cons]
    rw [he]; exact he2

/-- The front of a sorted non-empty list is the first of its highest-priority elements. -/
theorem list_sort_front (pri : Tid → Int) (w : Tid) (ws : List Tid) :
    ∃ t rest, list_sort (fun a b => compare_priority_func (pri a) (pri b)) (w :: ws) = t :: rest ∧
      FirstMax pri (w :: ws) t := by
  have h0 : FirstMax pri [w] w := ⟨[], [], rfl, by simp, by simp⟩
  obtain ⟨t, rest, he, hf⟩ := list_sort_fold_front pri ws w [] [w] h0
  refine ⟨t, rest, ?_, by simpa using hf⟩
  simpa [list_sort, list_insert_ordered] using he

/-! ## Mutual exclusion under interleaving -/

/-- C1: the interleaved execution reaches a state, with both threads between calls, in
which thread 1 has completed `lock_acquire` on lock 0 and has not called `lock_release`,
yet `lock->holder` is `NULL` and `lock_held_by_current_thread` is false for thread 1:
thread 0, resumed after the `thread_yield` inside `sema_up`, executed the trailing
`lock->holder = NULL` of `lock_release` over the new owner.  The mutual-exclusion
invariant of the specification fails in that state. -/
theorem c1_release_clears_holder_of_new_owner :
    ∃ s, Reachable c1_pri 0 s ∧ s.owns 1 0 = true ∧ s.owns 0 0 = false ∧
      (s.k.locks 0).holder = none ∧ lock_held_by_current_thread s.k 1 0 = false ∧
      (s.k.threads 1).holding_locks = [0] ∧ (s.k.locks 0).semaphore.value = 0 ∧
      s.pc 0 = .idle ∧ s.pc 1 = .idle ∧ ¬ MutexInv s 0 := by
  have hv1 : (run 1 (boot c1_pri 0) c1_trace).map (fun s => s.view 1 0) =
      some { holder := none, value := 0, waiters := [], owns := true,
             held_by_current := false, holding_locks := [0], at_idle := true } := by decide
  have hv0 : (run 1 (boot c1_pri 0) c1_trace).map (fun s => s.view 0 0) =
      some { holder := none, value := 0, waiters := [], owns := false,
             held_by_current := false, holding_locks := [], at_idle := true } := by decide
  cases hr : run 1 (boot c1_pri 0) c1_trace with
  | none => rw [hr] at hv1; simp at hv1
  | some s =>
    rw [hr] at hv1 hv0
    simp only [Option.map_some', Option.some.injEq, Sys.view, View.mk.injEq,
      decide_eq_true_eq, decide_eq_false_iff_not] at hv1 hv0
    obtain ⟨h1, h2, _, h4, h5, h6, h7⟩ := hv1
    obtain ⟨_, _, _, g4, _, _, g7⟩ := hv0
    refine ⟨s, ⟨1, c1_trace, hr⟩, h4, g4, h1, h5, h6, h2, g7, h7, ?_⟩
    intro hinv
    have := (hinv.2.1 1).mpr h4
    rw [h1] at this
    exact Option.noConfusion this

/-! ## Priority donation -/

theorem donate_once_threads (k : Kernel) (c : Tid) (l : Lid) (o t : Tid) :
    (donate_once k c l o).threads t =
      if t = o ∧ (k.threads o).priority < (k.threads c).priority then
        { priority := (k.threads c).priority,
          init_priority :=
            if (k.threads o).init_priority = -1 then (k.threads o).priority
            else (k.threads o).init_priority,
          wait_lock := (k.threads o).wait_lock,
          holding_locks := (k.threads o).holding_locks }
      else k.threads t := by
  unfold donate_once
  by_cases h1 : (k.locks l).max_val < (k.threads c).priority <;>
  by_cases h2 : (k.threads o).priority < (k.threads c).priority <;>
  by_cases h3 : t = o <;>
  by_cases h4 : (k.threads o).init_priority = -1 <;>
  simp [Kernel.setThread, Kernel.setLock, h1, h2, h3, h4]

theorem donate_once_locks (k : Kernel) (c : Tid) (l : Lid) (o : Tid) (m : Lid) :
    (donate_once k c l o).locks m =
      if m = l ∧ (k.locks l).max_val < (k.threads c).priority then
        { k.locks l with max_val := (k.threads c).priority }
      else k.locks m := by
  unfold donate_once
  by_cases h1 : (k.locks l).max_val < (k.threads c).priority <;>
  by_cases h2 : (k.threads o).priority < (k.threads c).priority <;>
  by_cases h3 : m = l <;>
  simp [Kernel.setThread, Kernel.setLock, h1, h2, h3]

theorem raised_refl (p : Int) (k : Kernel) : Raised p k k :=
  ⟨fun _ => ⟨rfl, rfl, le_refl _, Or.inl rfl⟩, fun _ => ⟨rfl, rfl, le_refl _⟩⟩

theorem raised_trans (p : Int) (k k1 k2 : Kernel) (h1 : Raised p k k1) (h2 : Raised p k1 k2) :
    Raised p k k2 := by
  refine ⟨fun t => ?_, fun m => ?_⟩
  · obtain ⟨a1, a2, a3, a4⟩ := h1.1 t
    obtain ⟨b1, b2, b3, b4⟩ := h2.1 t
    refine ⟨b1.trans a1, b2.trans a2, le_trans a3 b3, ?_⟩
    rcases b4 with b4 | b4
    · rcases a4 with a4 | a4
      · exact Or.inl (b4.trans a4)
      · exact Or.inr (b4.trans a4)
    · exact Or.inr b4
  · obtain ⟨a1, a2, a3⟩ := h1.2 m
    obtain ⟨b1, b2, b3⟩ := h2.2 m
    exact ⟨b1.trans a1, b2.trans a2, le_trans a3 b3⟩

theorem donate_once_raised (k : Kernel) (c : Tid) (l : Lid) (o : Tid) :
    Raised (k.threads c).priority k (donate_once k c l o) := by
  refine ⟨fun t => ?_, fun m => ?_⟩
  · rw [donate_once_threads]
    split
    · rename_i h
      obtain ⟨rfl, hlt⟩ := h
      exact ⟨rfl, rfl, le_of_lt hlt, Or.inr rfl⟩
    · exact ⟨rfl, rfl, le_refl _, Or.inl rfl⟩
  · rw [donate_once_locks]
    split
    · rename_i h
      obtain ⟨rfl, hlt⟩ := h
      exact ⟨rfl, rfl, le_of_lt hlt⟩
    · exact ⟨rfl, rfl, le_refl _⟩

theorem donate_once_owner_ge (k : Kernel) (c : Tid) (l : Lid) (o : Tid) :
    (k.threads c).priority ≤ ((donate_once k c l o).threads o).priority ∧
    (k.threads c).priority ≤ ((donate_once k c l o).locks l).max_val := by
  rw [donate_once_threads, donate_once_locks]
  constructor
  · split
    · exact le_refl _
    · rename_i h
      simp only [true_and, not_lt] at h
      exact h
  · split
    · exact le_refl _
    · rename_i h
      simp only [true_and, not_lt] at h
      exact h

theorem raised_priority_of_donor (p : Int) (k k1 : Kernel) (c : Tid) (h : Raised p k k1)
    (hp : (k.threads c).priority = p) : (k1.threads c).priority = p := by
  rcases (h.1 c).2.2.2 with h4 | h4
  · rw [h4, hp]
  · exact h4

theorem waitChain_of_raised (p : Int) (k k1 : Kernel) (h : Raised p k k1) :
    ∀ (chain : List (Lid × Tid)) (l : Lid), WaitChain k l chain → WaitChain k1 l chain := by
  intro chain
  induction chain with
  | nil => intro l hc; exact hc
  | cons q rest ih =>
    intro l hc
    cases rest with
    | nil =>
      obtain ⟨h1, h2, h3⟩ := hc
      exact ⟨h1, ((h.2 l).1).trans h2, ((h.1 q.2).1).trans h3⟩
    | cons r rest1 =>
      obtain ⟨h1, h2, h3, h4⟩ := hc
      exact ⟨h1, ((h.2 l).1).trans h2, ((h.1 q.2).1).trans h3, ih r.1 h4⟩

/-- Along a finite wait-for chain `donate_priority` returns, and every owner and every lock
of the chain ends at the donor's priority or above. -/
theorem donate_priority_chain (T : Tid) (p : Int) :
    ∀ (chain : List (Lid × Tid)) (k : Kernel) (l : Lid) (fuel : Nat),
      WaitChain k l chain → chain.length ≤ fuel → (k.threads T).priority = p →
      ∃ k1, donate_priority fuel k T l = .ok k1 ∧ Raised p k k1 ∧
        ∀ q ∈ chain, p ≤ (k1.threads q.2).priority ∧ p ≤ (k1.locks q.1).max_val := by
  intro chain
  induction chain with
  | nil => intro k l fuel hc; exact absurd hc (by simp [WaitChain])
  | cons q rest ih =>
    intro k l fuel hc hf hp
    cases fuel with
    | zero => simp at hf
    | succ f =>
      have hR : Raised p k (donate_once k T l q.2) := hp ▸ donate_once_raised k T l q.2
      have hge := donate_once_owner_ge k T l q.2
      rw [hp] at hge
      cases rest with
      | nil =>
        obtain ⟨h1, h2, h3⟩ := hc
        have hw : ((donate_once k T l q.2).threads q.2).wait_lock = none :=
          ((hR.1 q.2).1).trans h3
        refine ⟨donate_once k T l q.2, ?_, hR, ?_⟩
        · simp only [donate_priority, h2, hw]
        · intro r hr
          simp only [List.mem_singleton] at hr
          subst hr
          rw [h1]
          exact hge
      | cons r rest1 =>
        obtain ⟨h1, h2, h3, h4⟩ := hc
        have hw : ((donate_once k T l q.2).threads q.2).wait_lock = some r.1 :=
          ((hR.1 q.2).1).trans h3
        have hc2 := waitChain_of_raised p k _ hR (r :: rest1) r.1 h4
        have hp2 := raised_priority_of_donor p k _ T hR hp
        have hf2 : (r :: rest1).length ≤ f := by simpa using hf
        obtain ⟨k1, he, hR1, hall⟩ := ih (donate_once k T l q.2) r.1 f hc2 hf2 hp2
        refine ⟨k1, ?_, raised_trans p k _ k1 hR hR1, ?_⟩
        · simp only [donate_priority, h2, hw]
          exact he
        · intro s hs
          rcases List.mem_cons.mp hs with hs | hs
          · subst hs
            rw [h1]
            exact ⟨le_trans hge.1 (hR1.1 s.2).2.2.1, le_trans hge.2 (hR1.2 l).2.2⟩
          · exact hall s hs

/-- C3: along a finite wait-for chain starting at the lock, `donate_priority` called by
thread `T` returns, leaves `T`'s priority as it was, and afterwards every owner on the
chain has priority at least `T`'s (exactly `T`'s if it was lower before) and every lock on
the chain has `max_val` at least `T`'s priority.  In particular, when `T1` holds `L1`, `T2`
holds `L2` and is blocked on `L1`, and `T3` of priority 10 calls `lock_acquire (L2)`, the
priority of `T1` becomes 10 if it was below 10. -/
theorem c3_donate_priority_along_chain (k : Kernel) (T : Tid) (L0 : Lid)
    (chain : List (Lid × Tid)) (fuel : Nat)
    (hc : WaitChain k L0 chain) (hf : chain.length ≤ fuel) :
    (∃ k1, donate_priority fuel k T L0 = .ok k1 ∧
      (k1.threads T).priority = (k.threads T).priority ∧
      ∀ q ∈ chain,
        (k.threads T).priority ≤ (k1.threads q.2).priority ∧
        ((k.threads q.2).priority < (k.threads T).priority →
          (k1.threads q.2).priority = (k.threads T).priority) ∧
        (k.threads T).priority ≤ (k1.locks q.1).max_val) ∧
    (∀ (kk : Kernel) (T1 T2 T3 : Tid) (L1 L2 : Lid),
      (kk.locks L1).holder = some T1 → (kk.locks L2).holder = some T2 →
      (kk.threads T2).wait_lock = some L1 → (kk.threads T1).wait_lock = none →
      (kk.threads T3).priority = 10 → T3 ≠ T2 → (kk.threads T1).priority < 10 →
      ∃ r, lock_acquire (fuel + 2) kk T3 L2 = .ok r ∧ (r.1.threads T1).priority = 10) := by
  constructor
  · obtain ⟨k1, he, hR, hall⟩ :=
      donate_priority_chain T (k.threads T).priority chain k L0 fuel hc hf rfl
    refine ⟨k1, he, raised_priority_of_donor _ k k1 T hR rfl, ?_⟩
    intro q hq
    obtain ⟨h1, h2⟩ := hall q hq
    refine ⟨h1, ?_, h2⟩
    intro hlt
    rcases (hR.1 q.2).2.2.2 with h4 | h4
    · rw [h4] at h1
      exact absurd hlt (not_lt.mpr h1)
    · exact h4
  · intro kk T1 T2 T3 L1 L2 hL1 hL2 hw2 hw1 hp3 h32 hlt
    have h31 : T1 ≠ T3 := by
      intro h
      rw [h, hp3] at hlt
      exact lt_irrefl _ hlt
    have h23 : T2 ≠ T3 := fun h => h32 h.symm
    have hchain : WaitChain
        (kk.setThread T3 { kk.threads T3 with wait_lock := some L2 }) L2
        [(L2, T2), (L1, T1)] := by
      simp [WaitChain, Kernel.setThread, hL1, hL2, hw2, hw1, h31, h23]
    have hp : ((kk.setThread T3 { kk.threads T3 with wait_lock := some L2 }).threads
        T3).priority = 10 := by
      simp [Kernel.setThread, hp3]
    obtain ⟨k2, he, hR, hall⟩ := donate_priority_chain T3 10 [(L2, T2), (L1, T1)] _ L2
      (fuel + 2) hchain (by simp) hp
    have hge := (hall (L1, T1) (by simp)).1
    have h10 : (k2.threads T1).priority = 10 := by
      rcases (hR.1 T1).2.2.2 with h4 | h4
      · rw [h4] at hge
        simp only [Kernel.setThread, h31, if_false] at hge
        exact absurd hlt (not_lt.mpr hge)
      · exact h4
    have hb : lock_acquire_begin (fuel + 2) kk T3 L2 = .ok k2 := by
      have hheld : lock_held_by_current_thread kk T3 L2 = false := by
        simp [lock_held_by_current_thread, hL2, h23]
      have hh : ((kk.setThread T3 { kk.threads T3 with wait_lock := some L2 }).locks
          L2).holder = some T2 := by
        simp [Kernel.setThread, hL2]
      simp only [lock_acquire_begin, hheld, hh]
      exact he
    unfold lock_acquire
    rw [hb]
    simp only []
    cases sema_down (k2.locks L2).semaphore T3 with
    | blocked s => exact ⟨_, rfl, by simpa [Kernel.setLock] using h10⟩
    | acquired s =>
      exact ⟨_, rfl, by simpa [lock_acquire_finish, Kernel.setLock, Kernel.setThread, h31]
        using h10⟩

/-- C3, instance: thread 2 (priority 10) donates along the chain lock 1, thread 1, lock 0,
thread 0. -/
theorem c3_donate_priority_along_chain_witness :
    WaitChain c3_kernel 1 [(1, 1), (0, 0)] ∧
    ∃ k1, donate_priority 2 c3_kernel 2 1 = .ok k1 ∧
      (k1.threads 2).priority = (c3_kernel.threads 2).priority :=
  ⟨by simp [WaitChain, c3_kernel],
   (c3_donate_priority_along_chain c3_kernel 2 1 [(1, 1), (0, 0)] 2
      (by simp [WaitChain, c3_kernel]) (by decide)).1.imp (fun _ h => ⟨h.1, h.2.1⟩)⟩

/-- C4: for a lock held by `O`, where `O` waits on no lock, `donate_priority` called by `T`
returns with `max_val` the maximum of the old `max_val` and `T`'s priority; if `O`'s priority
was below `T`'s it becomes `T`'s and `O`'s `init_priority` becomes the old priority of `O`
when it was -1 and is unchanged otherwise; if `O`'s priority was at least `T`'s, both fields
of `O` are unchanged; `T`'s own `priority` and `init_priority` are unchanged. -/
theorem c4_donate_priority_single_owner (k : Kernel) (T O : Tid) (L : Lid) (fuel : Nat)
    (hh : (k.locks L).holder = some O) (hw : (k.threads O).wait_lock = none) :
    ∃ k1, donate_priority (fuel + 1) k T L = .ok k1 ∧
      (k1.locks L).max_val = max (k.locks L).max_val (k.threads T).priority ∧
      ((k.threads O).priority < (k.threads T).priority →
        (k1.threads O).priority = (k.threads T).priority ∧
        (k1.threads O).init_priority =
          if (k.threads O).init_priority = -1 then (k.threads O).priority
          else (k.threads O).init_priority) ∧
      ((k.threads T).priority ≤ (k.threads O).priority →
        (k1.threads O).priority = (k.threads O).priority ∧
        (k1.threads O).init_priority = (k.threads O).init_priority) ∧
      (k1.threads T).priority = (k.threads T).priority ∧
      (k1.threads T).init_priority = (k.threads T).init_priority := by
  have hR := donate_once_raised k T L O
  have hw1 : ((donate_once k T L O).threads O).wait_lock = none := ((hR.1 O).1).trans hw
  refine ⟨donate_once k T L O, ?_, ?_, ?_, ?_, ?_⟩
  · simp only [donate_priority, hh, hw1]
  · rw [donate_once_locks]
    by_cases h : (k.locks L).max_val < (k.threads T).priority
    · simp [h, max_eq_right (le_of_lt h)]
    · simp [h, max_eq_left (not_lt.mp h)]
  · intro hlt
    rw [donate_once_threads]
    simp [hlt]
  · intro hle
    rw [donate_once_threads]
    simp [not_lt.mpr hle]
  · rw [donate_once_threads]
    by_cases h : T = O
    · subst h; simp
    · simp [h]

/-- C4, instance: thread 2 (priority 10) donates to thread 0 through lock 0. -/
theorem c4_donate_priority_single_owner_witness :
    (c3_kernel.locks 0).holder = some 0 ∧ (c3_kernel.threads 0).wait_lock = none ∧
    ∃ k1, donate_priority 1 c3_kernel 2 0 = .ok k1 ∧
      (k1.locks 0).max_val = max (c3_kernel.locks 0).max_val (c3_kernel.threads 2).priority :=
  ⟨by decide, by decide,
   (c4_donate_priority_single_owner c3_kernel 2 0 0 0 (by decide) (by decide)).imp
     (fun _ h => ⟨h.1, h.2.1⟩)⟩

/-! ## Priority restoration -/

/-- C5: thread 0 (base priority 3) holds locks 0, 1, 2; priority 5 was donated through
lock 0 and priority 10 through lock 1.  After `lock_release` of lock 2 it still holds
locks 0 and 1, whose `max_val` are 5 and 10, and `init_priority` is 3, not -1; yet
`priority_back` has set its priority to 5, not to the maximum 10. -/
theorem c5_priority_back_takes_lowest_max_val :
    c5_scenario.toOption.map (fun k =>
      ((k.threads 0).priority, (k.threads 0).init_priority, (k.threads 0).holding_locks,
        (k.locks 0).max_val, (k.locks 1).max_val, (k.locks 2).holder.isNone))
      = some (5, 3, [0, 1], 5, 10, true) := by
  decide

/-- C6: thread 0 (base priority 3) holds lock 0, which nobody asked for (`max_val` -1), and
lock 1, through which priority 10 was donated.  After `lock_release` of lock 1 its priority
is -1, below the base priority 3 still saved in `init_priority`. -/
theorem c6_release_drops_priority_below_base :
    c6_scenario.toOption.map (fun k =>
      ((k.threads 0).priority, (k.threads 0).init_priority, (k.threads 0).holding_locks,
        (k.locks 0).max_val, decide ((k.threads 0).priority < (k.threads 0).init_priority)))
      = some (-1, 3, [0], -1, true) := by
  decide

/-- With a donation recorded and no lock left in `holding_locks`, `priority_back` puts the
saved priority back and clears `init_priority`. -/
theorem priority_back_full_revert (k : Kernel) (L : Lid) (O : Tid)
    (hh : (k.locks L).holder = some O) :
    (k.threads O).init_priority ≠ -1 → (k.threads O).holding_locks = [] →
      ∃ k1, priority_back k L = .ok k1 ∧
        (k1.threads O).priority = (k.threads O).init_priority ∧
        (k1.threads O).init_priority = -1 ∧
        (k1.threads O).wait_lock = (k.threads O).wait_lock ∧
        (k1.threads O).holding_locks = (k.threads O).holding_locks ∧
        (∀ t, t ≠ O → k1.threads t = k.threads t) ∧
        (∀ l, k1.locks l = k.locks l) := by
  intro hi he
  refine ⟨k.setThread O { k.threads O with
    priority := (k.threads O).init_priority, init_priority := -1 }, ?_, ?_, ?_, ?_, ?_, ?_, ?_⟩
  · simp [priority_back, hh, hi, he]
  · simp [Kernel.setThread]
  · simp [Kernel.setThread]
  · simp [Kernel.setThread]
  · simp [Kernel.setThread]
  · intro t ht
    simp [Kernel.setThread, ht]
  · intro l
    rfl

/-- C7: `priority_back` on a lock held by `O`.  With `O`'s `init_priority` equal to -1 it
returns the state unchanged.  With `init_priority` different from -1 and `O`'s
`holding_locks` empty, it sets `O`'s priority to the old `init_priority` and `init_priority`
to -1 and changes nothing else: `O`'s other fields, every other thread and every lock
(its `max_val` in particular) are as before. -/
theorem c7_priority_back_noop_or_full_revert (k : Kernel) (L : Lid) (O : Tid)
    (hh : (k.locks L).holder = some O) :
    ((k.threads O).init_priority = -1 → priority_back k L = .ok k) ∧
    ((k.threads O).init_priority ≠ -1 → (k.threads O).holding_locks = [] →
      ∃ k1, priority_back k L = .ok k1 ∧
        (k1.threads O).priority = (k.threads O).init_priority ∧
        (k1.threads O).init_priority = -1 ∧
        (k1.threads O).wait_lock = (k.threads O).wait_lock ∧
        (k1.threads O).holding_locks = (k.threads O).holding_locks ∧
        (∀ t, t ≠ O → k1.threads t = k.threads t) ∧
        (∀ l, k1.locks l = k.locks l) ∧
        (∀ l, (k1.locks l).max_val = (k.locks l).max_val)) := by
  constructor
  · intro hi
    simp [priority_back, hh, hi]
  · intro hi he
    obtain ⟨k1, h1, h2, h3, h4, h5, h6, h7⟩ := priority_back_full_revert k L O hh hi he
    exact ⟨k1, h1, h2, h3, h4, h5, h6, h7, fun l => by rw [h7 l]⟩

/-- C7, instance: thread 1 of the chain scenario holds lock 1 and has received no donation. -/
theorem c7_priority_back_noop_or_full_revert_witness :
    (c3_kernel.locks 1).holder = some 1 ∧ priority_back c3_kernel 1 = .ok c3_kernel :=
  ⟨by decide, (c7_priority_back_noop_or_full_revert c3_kernel 1 1 (by decide)).1 (by decide)⟩

/-! ## Donation followed by release -/

/-- Donations through a lock whose owner waits on nothing all return; they leave the lock's
holder and the owner's `wait_lock` and `holding_locks` alone, and the owner's
`init_priority` is either still -1 with the priority untouched, or holds the priority the
owner had before the first donation. -/
theorem donate_all_single_owner (O : Tid) (L : Lid) (fuel : Nat) (p0 : Int) (hp0 : p0 ≠ -1) :
    ∀ (donors : List Tid) (k : Kernel),
      (k.locks L).holder = some O → (k.threads O).wait_lock = none →
      (((k.threads O).init_priority = -1 ∧ (k.threads O).priority = p0) ∨
        (k.threads O).init_priority = p0) →
      ∃ k1, donate_all (fuel + 1) k L donors = .ok k1 ∧
        (k1.locks L).holder = some O ∧
        (k1.threads O).holding_locks = (k.threads O).holding_locks ∧
        (((k1.threads O).init_priority = -1 ∧ (k1.threads O).priority = p0) ∨
          (k1.threads O).init_priority = p0) := by
  intro donors
  induction donors with
  | nil => intro k hh _ hj; exact ⟨k, rfl, hh, rfl, hj⟩
  | cons T ts ih =>
    intro k hh hw hj
    have hR := donate_once_raised k T L O
    have hw1 : ((donate_once k T L O).threads O).wait_lock = none := ((hR.1 O).1).trans hw
    have hh1 : ((donate_once k T L O).locks L).holder = some O := ((hR.2 L).1).trans hh
    have hd : donate_priority (fuel + 1) k T L = .ok (donate_once k T L O) := by
      simp only [donate_priority, hh, hw1]
    have hj1 : (((donate_once k T L O).threads O).init_priority = -1 ∧
        ((donate_once k T L O).threads O).priority = p0) ∨
        ((donate_once k T L O).threads O).init_priority = p0 := by
      rw [donate_once_threads]
      by_cases hlt : (k.threads O).priority < (k.threads T).priority
      · rw [if_pos ⟨rfl, hlt⟩]
        right
        show (if (k.threads O).init_priority = -1 then (k.threads O).priority
          else (k.threads O).init_priority) = p0
        rcases hj with ⟨h1, h2⟩ | h1
        · rw [if_pos h1]; exact h2
        · have hne : (k.threads O).init_priority ≠ -1 := by rw [h1]; exact hp0
          rw [if_neg hne]; exact h1
      · rw [if_neg (fun h => hlt h.2)]
        exact hj
    obtain ⟨k1, he, a1, a2, a3⟩ := ih (donate_once k T L O) hh1 hw1 hj1
    refine ⟨k1, ?_, a1, a2.trans (hR.1 O).2.1, a3⟩
    simp only [donate_all, hd]
    exact he

/-- C8 (as stated, refuted): thread 0 has priority -1 and `init_priority` -1 and holds
exactly lock 0, acquired with `lock_acquire`; after one `donate_priority` by thread 1
(priority 5) and `lock_release`, its priority is 5, not the -1 it had before the donation. -/
theorem c8_sentinel_priority_not_restored :
    ((boot_kernel (fun t => if t = 1 then 5 else -1)).threads 0).priority = -1 ∧
    ((boot_kernel (fun t => if t = 1 then 5 else -1)).threads 0).init_priority = -1 ∧
    c8_scenario.toOption.map (fun k =>
      ((k.threads 0).priority, (k.threads 0).init_priority, (k.threads 0).holding_locks,
        (k.locks 0).holder.isNone)) = some (5, -1, [], true) := by
  decide

/-- C8 (amended): for a holder `O` whose priority is not -1, with `init_priority` -1, that
holds exactly the lock `L` and waits on no lock, every finite sequence of
`donate_priority (L)` calls by arbitrary threads returns, and the following
`lock_release (L)` by `O` leaves `O`'s priority equal to its value before the first
donation and `O`'s `init_priority` equal to -1. -/
theorem c8_release_undoes_donations (k : Kernel) (O : Tid) (L : Lid) (donors : List Tid)
    (fuel : Nat)
    (hh : (k.locks L).holder = some O) (hi : (k.threads O).init_priority = -1)
    (hl : (k.threads O).holding_locks = [L]) (hw : (k.threads O).wait_lock = none)
    (hp : (k.threads O).priority ≠ -1) :
    ∃ k1 k2, donate_all (fuel + 1) k L donors = .ok k1 ∧ lock_release k1 O L = .ok k2 ∧
      (k2.threads O).priority = (k.threads O).priority ∧
      (k2.threads O).init_priority = -1 := by
  obtain ⟨k1, he, a1, a2, a3⟩ :=
    donate_all_single_owner O L fuel (k.threads O).priority hp donors k hh hw (Or.inl ⟨hi, rfl⟩)
  rw [hl] at a2
  have hheld : lock_held_by_current_thread k1 O L = true := by
    simp [lock_held_by_current_thread, a1]
  have hlr : list_remove k1 L = .ok (unlink k1 L) := by
    simp [list_remove, a1, a2]
  have hrm : ((unlink k1 L).threads O).holding_locks = [] := by
    simp [unlink, a2]
  have hrh : ((unlink k1 L).locks L).holder = some O := a1
  have hri : ((unlink k1 L).threads O).init_priority = (k1.threads O).init_priority := rfl
  have hrp : ((unlink k1 L).threads O).priority = (k1.threads O).priority := rfl
  refine ⟨k1, ?_⟩
  rcases a3 with ⟨b1, b2⟩ | b1
  · have hpb : priority_back (unlink k1 L) L = .ok (unlink k1 L) := by
      simp [priority_back, hrh, hri, b1]
    simp only [lock_release, lock_release_begin, hheld, hlr, hpb, if_true]
    refine ⟨_, he, rfl, ?_, ?_⟩
    · simpa [lock_release_finish, Kernel.setLock] using b2
    · simpa [lock_release_finish, Kernel.setLock] using b1
  · have hne : ((unlink k1 L).threads O).init_priority ≠ -1 := by
      rw [hri, b1]; exact hp
    obtain ⟨k3, hpb, c1, c2, _⟩ :=
      (priority_back_full_revert (unlink k1 L) L O hrh) hne hrm
    simp only [lock_release, lock_release_begin, hheld, hlr, hpb, if_true]
    refine ⟨_, he, rfl, ?_, ?_⟩
    · simp only [lock_release_finish, Kernel.setLock]
      rw [c1, hri, b1]
    · simp only [lock_release_finish, Kernel.setLock]
      exact c2

/-- C8, instance: threads 1 and 2 (priorities 5 and 10) donate to thread 0 (priority 3)
through lock 0, then thread 0 releases it. -/
theorem c8_release_undoes_donations_witness :
    (c8_kernel.locks 0).holder = some 0 ∧ (c8_kernel.threads 0).init_priority = -1 ∧
    (c8_kernel.threads 0).holding_locks = [0] ∧ (c8_kernel.threads 0).wait_lock = none ∧
    (c8_kernel.threads 0).priority ≠ -1 ∧
    ∃ k1 k2, donate_all 1 c8_kernel 0 [1, 2] = .ok k1 ∧ lock_release k1 0 0 = .ok k2 ∧
      (k2.threads 0).priority = (c8_kernel.threads 0).priority ∧
      (k2.threads 0).init_priority = -1 :=
  ⟨by decide, by decide, by decide, by decide, by decide,
   c8_release_undoes_donations c8_kernel 0 0 [1, 2] 0
     (by decide) (by decide) (by decide) (by decide) (by decide)⟩

/-! ## Bookkeeping of `holding_locks` -/

/-- C9: after `lock_init`, a `lock_try_acquire` by thread 0 returns true and makes thread 0
the holder of lock 0, but lock 0 is not in thread 0's `holding_locks`, which is empty. -/
theorem c9_try_acquire_skips_holding_locks :
    c9_scenario.toOption.map (fun r =>
      (r.2, decide ((r.1.locks 0).holder = some 0),
        decide (0 ∈ (r.1.threads 0).holding_locks), (r.1.threads 0).holding_locks))
      = some (true, true, false, []) := by
  decide

/-! ## Acquiring a free lock -/

/-- C10: on a free lock (no holder, semaphore value 1) `lock_acquire` by `T` returns
without blocking: afterwards the holder is `T`, `T` waits on no lock, the lock has been
appended to `T`'s `holding_locks`, the semaphore value is 0 and its waiters are as before,
and no thread's `priority` or `init_priority` and no lock's `max_val` has changed. -/
theorem c10_lock_acquire_free_lock (fuel : Nat) (k : Kernel) (T : Tid) (L : Lid)
    (hh : (k.locks L).holder = none) (hv : (k.locks L).semaphore.value = 1) :
    ∃ k1, lock_acquire fuel k T L = .ok (k1, false) ∧
      (k1.locks L).holder = some T ∧
      (k1.threads T).wait_lock = none ∧
      L ∈ (k1.threads T).holding_locks ∧
      (k1.threads T).holding_locks = (k.threads T).holding_locks ++ [L] ∧
      (k1.locks L).semaphore.value = 0 ∧
      (k1.locks L).semaphore.waiters = (k.locks L).semaphore.waiters ∧
      (∀ t, (k1.threads t).priority = (k.threads t).priority ∧
        (k1.threads t).init_priority = (k.threads t).init_priority) ∧
      (∀ l, (k1.locks l).max_val = (k.locks l).max_val) := by
  have hheld : lock_held_by_current_thread k T L = false := by
    simp [lock_held_by_current_thread, hh]
  have hb : lock_acquire_begin fuel k T L =
      .ok (k.setThread T { k.threads T with wait_lock := some L }) := by
    have hh1 : ((k.setThread T { k.threads T with wait_lock := some L }).locks L).holder
        = none := hh
    simp only [lock_acquire_begin, hheld, hh1]
    rfl
  have hd : sema_down ((k.setThread T { k.threads T with wait_lock := some L }).locks
      L).semaphore T = .acquired { (k.locks L).semaphore with value := 0 } := by
    have hv1 : ((k.setThread T { k.threads T with wait_lock := some L }).locks
        L).semaphore = (k.locks L).semaphore := rfl
    simp [sema_down, hv1, hv]
  simp only [lock_acquire, hb, hd]
  refine ⟨_, rfl, ?_, ?_, ?_, ?_, ?_, ?_, ?_, ?_⟩
  · simp [lock_acquire_finish, Kernel.setLock, Kernel.setThread]
  · simp [lock_acquire_finish, Kernel.setLock, Kernel.setThread]
  · simp [lock_acquire_finish, Kernel.setLock, Kernel.setThread]
  · simp [lock_acquire_finish, Kernel.setLock, Kernel.setThread]
  · simp [lock_acquire_finish, Kernel.setLock, Kernel.setThread]
  · simp [lock_acquire_finish, Kernel.setLock, Kernel.setThread]
  · intro t
    by_cases ht : t = T
    · subst ht; simp [lock_acquire_finish, Kernel.setLock, Kernel.setThread]
    · simp [lock_acquire_finish, Kernel.setLock, Kernel.setThread, ht]
  · intro l
    by_cases hl : l = L
    · subst hl; simp [lock_acquire_finish, Kernel.setLock, Kernel.setThread]
    · simp [lock_acquire_finish, Kernel.setLock, Kernel.setThread, hl]

/-- C10, instance: thread 0 acquires the free lock 0 of the freshly booted kernel. -/
theorem c10_lock_acquire_free_lock_witness :
    ((boot_kernel c5_pri).locks 0).holder = none ∧
    ((boot_kernel c5_pri).locks 0).semaphore.value = 1 ∧
    ∃ k1, lock_acquire 0 (boot_kernel c5_pri) 0 0 = .ok (k1, false) ∧
      (k1.locks 0).holder = some 0 :=
  ⟨by decide, by decide,
   (c10_lock_acquire_free_lock 0 (boot_kernel c5_pri) 0 0 (by decide) (by decide)).imp
     (fun _ h => ⟨h.1, h.2.1⟩)⟩

/-! ## The non-blocking variants -/

/-- C12: `sema_try_down` returns true exactly when `value` was positive; then the new value
is the old one minus 1; otherwise the semaphore is unchanged; in both cases `waiters` is
as before.  The call has no blocking outcome: it always returns the pair. -/
theorem c12_sema_try_down_no_block (s : Semaphore) :
    ((sema_try_down s).2 = true ↔ s.value > 0) ∧
    ((sema_try_down s).2 = true →
      (sema_try_down s).1.value = s.value - 1 ∧ (sema_try_down s).1.value + 1 = s.value) ∧
    ((sema_try_down s).2 = false → (sema_try_down s).1 = s) ∧
    (sema_try_down s).1.waiters = s.waiters := by
  by_cases h : s.value > 0
  · have e : sema_try_down s = ({ s with value := s.value - 1 }, true) := by
      simp [sema_try_down, h]
    rw [e]
    refine ⟨⟨fun _ => h, fun _ => rfl⟩, fun _ => ⟨rfl, ?_⟩, fun hf => absurd hf (by simp), rfl⟩
    show s.value - 1 + 1 = s.value
    omega
  · have e : sema_try_down s = (s, false) := by
      simp [sema_try_down, h]
    rw [e]
    exact ⟨⟨fun hf => absurd hf (by simp), fun hp => absurd hp h⟩,
      fun hf => absurd hf (by simp), fun _ => rfl, rfl⟩

/-- C11: for a lock not held by the caller, `lock_try_acquire` returns, and returns true
exactly when the semaphore value was positive; on true the holder is the caller and the
value is one lower; on false the lock is unchanged; in both cases every thread (its
`priority` and `init_priority` in particular) is unchanged, no lock's `max_val` and no
lock's `waiters` list has changed, and every other lock is unchanged. -/
theorem c11_lock_try_acquire_no_donation (k : Kernel) (cur : Tid) (lock : Lid)
    (hn : (k.locks lock).holder ≠ some cur) :
    ∃ k1 b, lock_try_acquire k cur lock = .ok (k1, b) ∧
      (b = true ↔ (k.locks lock).semaphore.value > 0) ∧
      (b = true → (k1.locks lock).holder = some cur ∧
        (k1.locks lock).semaphore.value = (k.locks lock).semaphore.value - 1 ∧
        (k1.locks lock).semaphore.value + 1 = (k.locks lock).semaphore.value) ∧
      (b = false → k1.locks lock = k.locks lock) ∧
      (∀ t, k1.threads t = k.threads t) ∧
      (∀ l, (k1.locks l).max_val = (k.locks l).max_val) ∧
      (∀ l, (k1.locks l).semaphore.waiters = (k.locks l).semaphore.waiters) ∧
      (∀ l, l ≠ lock → k1.locks l = k.locks l) := by
  have hheld : lock_held_by_current_thread k cur lock = false := by
    simp [lock_held_by_current_thread, hn]
  by_cases h : (k.locks lock).semaphore.value > 0
  · have hs : sema_try_down (k.locks lock).semaphore =
        ({ (k.locks lock).semaphore with value := (k.locks lock).semaphore.value - 1 }, true) := by
      simp [sema_try_down, h]
    simp only [lock_try_acquire, hheld, hs, if_true, Bool.false_eq_true, if_false]
    refine ⟨_, _, rfl, ?_, ?_, ?_, ?_, ?_, ?_, ?_⟩
    · simp [h]
    · intro _
      refine ⟨by simp [Kernel.setLock], by simp [Kernel.setLock], ?_⟩
      simp only [Kernel.setLock, if_true]
      omega
    · intro hf
      exact absurd hf (by simp)
    · intro t; rfl
    · intro l
      by_cases hl : l = lock
      · subst hl; simp [Kernel.setLock]
      · simp [Kernel.setLock, hl]
    · intro l
      by_cases hl : l = lock
      · subst hl; simp [Kernel.setLock]
      · simp [Kernel.setLock, hl]
    · intro l hl
      simp [Kernel.setLock, hl]
  · have hs : sema_try_down (k.locks lock).semaphore = ((k.locks lock).semaphore, false) := by
      simp [sema_try_down, h]
    simp only [lock_try_acquire, hheld, hs, if_true, Bool.false_eq_true, if_false]
    refine ⟨_, _, rfl, ?_, ?_, ?_, ?_, ?_, ?_, ?_⟩
    · simp [h]
    · intro hf
      exact absurd hf (by simp)
    · intro _
      simp [Kernel.setLock]
    · intro t; rfl
    · intro l
      by_cases hl : l = lock
      · subst hl; simp [Kernel.setLock]
      · simp [Kernel.setLock, hl]
    · intro l
      by_cases hl : l = lock
      · subst hl; simp [Kernel.setLock]
      · simp [Kernel.setLock, hl]
    · intro l hl
      simp [Kernel.setLock, hl]

/-- C11, instance: thread 1 tries the lock 0 that thread 0 holds and gets false. -/
theorem c11_lock_try_acquire_no_donation_witness :
    (c8_kernel.locks 0).holder ≠ some 1 ∧
    ∃ k1 b, lock_try_acquire c8_kernel 1 0 = .ok (k1, b) ∧
      (b = true ↔ (c8_kernel.locks 0).semaphore.value > 0) :=
  ⟨by decide,
   (c11_lock_try_acquire_no_donation c8_kernel 1 0 (by decide)).imp
     (fun _ h => h.imp (fun _ h2 => ⟨h2.1, h2.2.1⟩))⟩

/-! ## The yield at the end of `sema_up` -/

theorem sema_up_no_waiter (pri : Tid → Int) (cur : Tid) (v : Nat) :
    sema_up pri cur { value := v, waiters := [] } =
      { sema := { value := (v + 1) % UINT_MOD, waiters := [] },
        unblocked := none, yields := false } := by
  simp [sema_up]

theorem sema_up_some_waiter (pri : Tid → Int) (cur : Tid) (v : Nat) (w : Tid) (ws : List Tid) :
    ∃ t rest, FirstMax pri (w :: ws) t ∧ (t :: rest).Perm (w :: ws) ∧
      sema_up pri cur { value := v, waiters := w :: ws } =
        { sema := { value := (v + 1) % UINT_MOD, waiters := rest },
          unblocked := some t, yields := decide (pri cur < pri t) } := by
  obtain ⟨t, rest, he, hf⟩ := list_sort_front pri w ws
  have hp := list_sort_perm (fun a b => compare_priority_func (pri a) (pri b)) (w :: ws)
  rw [he] at hp
  refine ⟨t, rest, hf, hp, ?_⟩
  simp only [sema_up, he]

theorem sema_up_value (pri : Tid → Int) (cur : Tid) (s : Semaphore) :
    (sema_up pri cur s).sema.value = (s.value + 1) % UINT_MOD := by
  obtain ⟨v, ws⟩ := s
  cases ws with
  | nil => rw [sema_up_no_waiter]
  | cons w ws =>
    obtain ⟨t, rest, _, _, hu⟩ := sema_up_some_waiter pri cur v w ws
    rw [hu]

/-- C17: `sema_up` calls `thread_yield` exactly when it unblocked a waiter whose priority
is strictly greater than the caller's; with an empty `waiters` list, or an unblocked thread
of priority at most the caller's, it does not yield. -/
theorem c17_sema_up_yield_iff (pri : Tid → Int) (cur : Tid) (s : Semaphore) :
    ((sema_up pri cur s).yields = true ↔
      ∃ w, (sema_up pri cur s).unblocked = some w ∧ pri cur < pri w) ∧
    (s.waiters = [] → (sema_up pri cur s).yields = false ∧
      (sema_up pri cur s).unblocked = none) ∧
    (∀ w, (sema_up pri cur s).unblocked = some w → pri w ≤ pri cur →
      (sema_up pri cur s).yields = false) := by
  obtain ⟨v, ws⟩ := s
  cases ws with
  | nil =>
    rw [sema_up_no_waiter]
    simp
  | cons w ws =>
    obtain ⟨t, rest, _, _, hu⟩ := sema_up_some_waiter pri cur v w ws
    rw [hu]
    simp only [decide_eq_true_eq, Option.some.injEq, exists_eq_left', decide_eq_false_iff_not,
      not_lt, true_and]
    refine ⟨fun h => absurd h (by simp), ?_⟩
    intro x hx hle
    rw [hx]; exact hle

/-! ## Sorting by a key -/

theorem insert_front_firstMaxBy {α β : Type} [LinearOrder β] (key : α → β)
    (less : α → α → Bool) (hless : ∀ a b, less a b = true ↔ key b < key a)
    (x w : α) (rest done : List α) (h : FirstMaxBy key done w) :
    ∃ w1 rest1, list_insert_ordered less x (w :: rest) = w1 :: rest1 ∧
      FirstMaxBy key (done ++ [x]) w1 := by
  obtain ⟨pre, post, hd, hpre, hpost⟩ := h
  by_cases hx : key w < key x
  · refine ⟨x, w :: rest, ?_, done, [], by simp, ?_, by simp⟩
    · simp [list_insert_ordered, (hless x w).mpr hx]
    · intro p hp
      rw [hd] at hp
      rcases List.mem_append.mp hp with hp | hp
      · exact lt_trans (hpre p hp) hx
      · rcases List.mem_cons.mp hp with hp | hp
        · rw [hp]; exact hx
        · exact lt_of_le_of_lt (hpost p hp) hx
  · have hf : less x w = false := by
      cases hb : less x w with
      | false => rfl
      | true => exact absurd ((hless x w).mp hb) hx
    refine ⟨w, list_insert_ordered less x rest, ?_, pre, post ++ [x], by simp [hd], hpre, ?_⟩
    · simp [list_insert_ordered, hf]
    · intro q hq
      rcases List.mem_append.mp hq with hq | hq
      · exact hpost q hq
      · simp at hq
        rw [hq]; exact not_lt.mp hx

theorem list_sort_fold_front_by {α β : Type} [LinearOrder β] (key : α → β)
    (less : α → α → Bool) (hless : ∀ a b, less a b = true ↔ key b < key a) (xs : List α) :
    ∀ (w : α) (rest done : List α), FirstMaxBy key done w →
      ∃ w1 rest1,
        xs.foldl (fun a x => list_insert_ordered less x a) (w :: rest) = w1 :: rest1 ∧
        FirstMaxBy key (done ++ xs) w1 := by
  induction xs with
  | nil => intro w rest done h; exact ⟨w, rest, rfl, by simpa using h⟩
  | cons x xs ih =>
    intro w rest done h
    obtain ⟨w1, rest1, he, hf⟩ := insert_front_firstMaxBy key less hless x w rest done h
    obtain ⟨w2, rest2, he2, hf2⟩ := ih w1 rest1 (done ++ [x]) hf
    refine ⟨w2, rest2, ?_, by simpa using hf2⟩
    simp only [List.foldl_cons]
    rw [he]; exact he2

/-- The front of a sorted non-empty list is the first of its elements of highest key. -/
theorem list_sort_front_by {α β : Type} [LinearOrder β] (key : α → β)
    (less : α → α → Bool) (hless : ∀ a b, less a b = true ↔ key b < key a)
    (w : α) (ws : List α) :
    ∃ t rest, list_sort less (w :: ws) = t :: rest ∧ FirstMaxBy key (w :: ws) t := by
  have h0 : FirstMaxBy key [w] w := ⟨[], [], rfl, by simp, by simp⟩
  obtain ⟨t, rest, he, hf⟩ := list_sort_fold_front_by key less hless ws w [] [w] h0
  refine ⟨t, rest, ?_, by simpa using hf⟩
  simpa [list_sort, list_insert_ordered] using he

theorem firstMaxBy_le {α β : Type} [LinearOrder β] (key : α → β) (xs : List α) (w : α)
    (h : FirstMaxBy key xs w) : ∀ x ∈ xs, key x ≤ key w := by
  obtain ⟨pre, post, hd, hpre, hpost⟩ := h
  intro x hx
  rw [hd] at hx
  rcases List.mem_append.mp hx with hx | hx
  · exact le_of_lt (hpre x hx)
  · rcases List.mem_cons.mp hx with hx | hx
    · rw [hx]
    · exact hpost x hx

theorem compare_sema_func_iff (pri : Tid → Int) (sema : Tid → Semaphore) (a b : Tid) :
    compare_sema_func pri sema a b = true ↔
      sema_elem_rank pri sema b < sema_elem_rank pri sema a := by
  unfold compare_sema_func sema_elem_rank
  cases (sema a).waiters with
  | nil => simp
  | cons ta _ =>
    cases (sema b).waiters with
    | nil => simp [WithBot.bot_lt_coe]
    | cons tb _ => simp [WithBot.coe_lt_coe]

/-! ## Condition variables -/

/-- On a non-empty `waiters` list `cond_signal`, called by the holder of the lock, pops the
first element of highest rank and does `sema_up` on its semaphore. -/
theorem cond_signal_nonempty (k : Kernel) (cur : Tid) (m : CondMem) (lock : Lid)
    (hheld : (k.locks lock).holder = some cur) (hne : m.cond ≠ []) :
    ∃ e rest,
      cond_signal k cur m lock =
        .ok ({ cond := rest,
               sema := fun t =>
                 if t = e then (sema_up (fun t => (k.threads t).priority) cur (m.sema e)).sema
                 else m.sema t },
             some (e, sema_up (fun t => (k.threads t).priority) cur (m.sema e))) ∧
      FirstMaxBy (sema_elem_rank (fun t => (k.threads t).priority) m.sema) m.cond e ∧
      (e :: rest).Perm m.cond := by
  obtain ⟨c, sema⟩ := m
  cases c with
  | nil => exact absurd rfl hne
  | cons w ws =>
    obtain ⟨e, rest, he, hf⟩ := list_sort_front_by
      (sema_elem_rank (fun t => (k.threads t).priority) sema)
      (compare_sema_func (fun t => (k.threads t).priority) sema)
      (compare_sema_func_iff _ sema) w ws
    have hp := list_sort_perm (compare_sema_func (fun t => (k.threads t).priority) sema) (w :: ws)
    rw [he] at hp
    have hh : lock_held_by_current_thread k cur lock = true := by
      simp [lock_held_by_current_thread, hheld]
    refine ⟨e, rest, ?_, hf, hp⟩
    simp only [cond_signal, hh, he, if_true]

/-- C13 (as stated, refuted): threads 1, 2, 3 (priorities 1, 5, 9) wait on the condition
variable, inserted in that order; the first `cond_signal` pops thread 3 and leaves the list
sorted as thread 2, thread 1; thread 1 then receives priority 5 by donation; the second
`cond_signal` pops thread 2, although thread 1 has the same rank and was inserted first. -/
theorem c13_later_inserted_signalled_first :
    c13_three_waiters.toOption.map (fun s =>
      (s.2.cond, s.2.cond.map (fun e => (s.2.sema e).waiters))) = some ([1, 2, 3], [[1], [2], [3]]) ∧
    c13_before_second_signal.toOption.map (fun s =>
      (s.2.2.toList, s.2.1.cond, decide ((s.1.locks 0).holder = some 0),
        (s.1.threads 1).priority, (s.1.threads 2).priority)) = some ([3], [2, 1], true, 5, 5) ∧
    c13_second_signal.toOption.map (fun o => o.toList) = some [2] := by
  decide

/-- C13 (amended): `cond_signal` called by the holder of the lock.  With an empty `waiters`
list it returns the memory unchanged and does no `sema_up`.  With a non-empty list it
removes exactly one element, the one of highest rank (the priority of the thread blocked
on the element's semaphore, elements without a blocked thread ranking lowest) that stands
first in the list as it is at the call, and does one `sema_up` on that element's
semaphore; the other elements stay queued and their semaphores are unchanged. -/
theorem c13_cond_signal_wakes_first_highest (k : Kernel) (cur : Tid) (m : CondMem)
    (lock : Lid) (hheld : (k.locks lock).holder = some cur) :
    (m.cond = [] → cond_signal k cur m lock = .ok (m, none)) ∧
    (m.cond ≠ [] → ∃ e rest,
      cond_signal k cur m lock =
        .ok ({ cond := rest,
               sema := fun t =>
                 if t = e then (sema_up (fun t => (k.threads t).priority) cur (m.sema e)).sema
                 else m.sema t },
             some (e, sema_up (fun t => (k.threads t).priority) cur (m.sema e))) ∧
      FirstMaxBy (sema_elem_rank (fun t => (k.threads t).priority) m.sema) m.cond e ∧
      (e :: rest).Perm m.cond) := by
  constructor
  · intro he
    have hh : lock_held_by_current_thread k cur lock = true := by
      simp [lock_held_by_current_thread, hheld]
    obtain ⟨c, sema⟩ := m
    simp only at he
    subst he
    simp only [cond_signal, hh, if_true]
  · intro hne
    exact cond_signal_nonempty k cur m lock hheld hne

/-- C13, instance: thread 0, holder of lock 0, signals a condition variable with three
queued elements; the element of thread 2 (priority 10) is popped, those of thread 3 (no
blocked thread) and thread 1 (priority 5) stay. -/
theorem c13_cond_signal_wakes_first_highest_witness :
    (c8_kernel.locks 0).holder = some 0 ∧ c14_mem.cond ≠ [] ∧
    (cond_signal c8_kernel 0 c14_mem 0).toOption.map (fun r =>
      (r.2.toList.map Prod.fst, r.1.cond)) = some ([2], [1, 3]) ∧
    ∃ e rest, FirstMaxBy (sema_elem_rank (fun t => (c8_kernel.threads t).priority) c14_mem.sema)
      c14_mem.cond e ∧ (e :: rest).Perm c14_mem.cond :=
  ⟨by decide, by decide, by decide,
   ((c13_cond_signal_wakes_first_highest c8_kernel 0 c14_mem 0 (by decide)).2
      (by decide)).imp (fun _ h => h.imp (fun _ h2 => h2.2))⟩

theorem sema_elem_rank_congr (pri : Tid → Int) (s1 s2 : Tid → Semaphore) (x : Tid)
    (h : s1 x = s2 x) : sema_elem_rank pri s1 x = sema_elem_rank pri s2 x := by
  unfold sema_elem_rank
  rw [h]

/-- With enough fuel `cond_broadcast`, called by the holder of the lock, makes one
`cond_signal` call per queued element, each doing one `sema_up`, in order of rank. -/
theorem cond_broadcast_all (k : Kernel) (cur : Tid) (lock : Lid)
    (hheld : (k.locks lock).holder = some cur) :
    ∀ (n : Nat) (m : CondMem) (fuel : Nat), m.cond.length = n → m.cond.Nodup → n ≤ fuel →
      ∃ (m1 : CondMem) (ups : List (Tid × UpResult)),
        cond_broadcast fuel k cur m lock = .ok (m1, ups.map some) ∧
        m1.cond = [] ∧ ups.length = n ∧
        (ups.map Prod.fst).Perm m.cond ∧
        (ups.map Prod.fst).Pairwise (fun a b =>
          sema_elem_rank (fun t => (k.threads t).priority) m.sema b ≤
            sema_elem_rank (fun t => (k.threads t).priority) m.sema a) ∧
        (∀ u ∈ ups, u.2 = sema_up (fun t => (k.threads t).priority) cur (m.sema u.1)) ∧
        (∀ t, m1.sema t =
          if t ∈ m.cond then (sema_up (fun t => (k.threads t).priority) cur (m.sema t)).sema
          else m.sema t) := by
  intro n
  induction n with
  | zero =>
    intro m fuel hl _ _
    have hc : m.cond = [] := List.length_eq_zero.mp hl
    refine ⟨m, [], ?_, hc, rfl, by simp [hc], List.Pairwise.nil, fun u hu => absurd hu (List.not_mem_nil u), ?_⟩
    · cases fuel <;> simp [cond_broadcast, hc]
    · intro t; simp [hc]
  | succ n ih =>
    intro m fuel hl hnd hf
    have hne : m.cond ≠ [] := by
      intro hc
      rw [hc] at hl
      simp at hl
    obtain ⟨e, rest, hsig, hfm, hperm⟩ := cond_signal_nonempty k cur m lock hheld hne
    have hnd2 : (e :: rest).Nodup := (List.Perm.nodup_iff hperm).mpr hnd
    have he_notin : e ∉ rest := (List.nodup_cons.mp hnd2).1
    have hrest_nd : rest.Nodup := (List.nodup_cons.mp hnd2).2
    have hlen : rest.length = n := by
      have := hperm.length_eq
      simp only [List.length_cons] at this
      omega
    cases fuel with
    | zero => omega
    | succ f =>
      obtain ⟨m2, ups, hb, hc2, hl2, hp2, hpw2, hu2, hs2⟩ :=
        ih { cond := rest,
             sema := fun t =>
               if t = e then (sema_up (fun t => (k.threads t).priority) cur (m.sema e)).sema
               else m.sema t } f hlen hrest_nd (by omega)
      have hmem_rest : ∀ x, x ∈ ups.map Prod.fst → x ∈ rest := fun x hx => (hp2.mem_iff).mp hx
      have hne_e : ∀ x, x ∈ rest → x ≠ e := fun x hx h => he_notin (h ▸ hx)
      refine ⟨m2, (e, sema_up (fun t => (k.threads t).priority) cur (m.sema e)) :: ups,
        ?_, hc2, by simp [hl2], ?_, ?_, ?_, ?_⟩
      · obtain ⟨c, sema⟩ := m
        cases c with
        | nil => exact absurd rfl hne
        | cons w ws =>
          simp only [cond_broadcast, hsig, hb, List.map_cons]
      · simp only [List.map_cons]
        exact (List.Perm.cons e hp2).trans hperm
      · simp only [List.map_cons]
        refine List.Pairwise.cons ?_ ?_
        · intro b hb'
          exact firstMaxBy_le _ m.cond e hfm b ((hperm.mem_iff).mp
            (List.mem_cons_of_mem e (hmem_rest b hb')))
        · refine List.Pairwise.imp_of_mem ?_ hpw2
          intro a b ha hb' hab
          have ea := sema_elem_rank_congr (fun t => (k.threads t).priority)
            (fun t => if t = e then
              (sema_up (fun t => (k.threads t).priority) cur (m.sema e)).sema else m.sema t)
            m.sema a (by simp [hne_e a (hmem_rest a ha)])
          have eb := sema_elem_rank_congr (fun t => (k.threads t).priority)
            (fun t => if t = e then
              (sema_up (fun t => (k.threads t).priority) cur (m.sema e)).sema else m.sema t)
            m.sema b (by simp [hne_e b (hmem_rest b hb')])
          rw [← ea, ← eb]
          exact hab
      · intro u hu
        rcases List.mem_cons.mp hu with hu | hu
        · rw [hu]
        · have h1 := hu2 u hu
          have hx : u.1 ∈ rest := hmem_rest u.1 (List.mem_map_of_mem Prod.fst hu)
          simp only [hne_e u.1 hx, if_false] at h1
          exact h1
      · intro t
        rw [hs2 t]
        by_cases hte : t = e
        · subst hte
          have hin : t ∈ m.cond := (hperm.mem_iff).mp (List.mem_cons_self t rest)
          simp [he_notin, hin]
        · have hiff : t ∈ rest ↔ t ∈ m.cond := by
            constructor
            · intro h; exact (hperm.mem_iff).mp (List.mem_cons_of_mem e h)
            · intro h
              rcases List.mem_cons.mp ((hperm.mem_iff).mpr h) with h | h
              · exact absurd h hte
              · exact h
          by_cases hin : t ∈ rest
          · simp [hin, hiff.mp hin, hte]
          · have hnin : t ∉ m.cond := fun h => hin (hiff.mpr h)
            simp [hin, hnin, hte]

/-- With less fuel than queued elements the loop of `cond_broadcast` is not finished. -/
theorem cond_broadcast_short (k : Kernel) (cur : Tid) (lock : Lid)
    (hheld : (k.locks lock).holder = some cur) :
    ∀ (fuel : Nat) (m : CondMem), fuel < m.cond.length →
      cond_broadcast fuel k cur m lock = .error .out_of_fuel := by
  intro fuel
  induction fuel with
  | zero =>
    intro m hlt
    obtain ⟨c, sema⟩ := m
    cases c with
    | nil => simp at hlt
    | cons w ws => simp [cond_broadcast]
  | succ f ih =>
    intro m hlt
    have hne : m.cond ≠ [] := by
      intro hc
      rw [hc] at hlt
      simp at hlt
    obtain ⟨e, rest, hsig, _, hperm⟩ := cond_signal_nonempty k cur m lock hheld hne
    have hlen : f < rest.length := by
      have := hperm.length_eq
      simp only [List.length_cons] at this
      omega
    have hrec := ih
      { cond := rest,
        sema := fun t =>
          if t = e then (sema_up (fun t => (k.threads t).priority) cur (m.sema e)).sema
          else m.sema t } hlen
    obtain ⟨c, sema⟩ := m
    cases c with
    | nil => exact absurd rfl hne
    | cons w ws => simp only [cond_broadcast, hsig, hrec]

/-- C14 (as stated, refuted): threads 1 and 2 (priorities 10 and 5) wait on the condition
variable, blocked on their elements; thread 3 (priority 7) has queued its element in
`cond_wait` and released the lock but not reached `sema_down`.  `cond_broadcast` by thread
0, the holder, does its `sema_up`s in the order thread 1, thread 2, thread 3: priorities
10, 5, 7. -/
theorem c14_unblocked_waiter_signalled_last :
    c14_state.toOption.map (fun s =>
      (decide ((s.1.locks 0).holder = some 0), s.2.cond, decide s.2.cond.Nodup))
      = some (true, [1, 2, 3], true) ∧
    c14_state.toOption.map (fun s =>
      (s.2.cond.map (fun e => (s.2.sema e).waiters),
        s.2.cond.map (fun e => (s.1.threads e).priority)))
      = some ([[1], [2], []], [10, 5, 7]) ∧
    c14_broadcast_order.toOption = some [(1, 10), (2, 5), (3, 7)] := by
  decide

/-- C14 (amended): `cond_broadcast` called by the holder of the lock on a condition variable
with `n` queued elements returns after exactly `n` calls of `cond_signal` (fuel `n` suffices,
less does not), leaves `waiters` empty, and does exactly one `sema_up` on each element's
semaphore, in non-increasing order of rank: the priority of the thread blocked on the
element, elements on which no thread is blocked yet coming last.  When every queued thread
is blocked on its own element, that is non-increasing order of the waiting threads'
priorities. -/
theorem c14_cond_broadcast_wakes_all_in_order (k : Kernel) (cur : Tid) (m : CondMem)
    (lock : Lid) (fuel : Nat)
    (hheld : (k.locks lock).holder = some cur) (hnd : m.cond.Nodup)
    (hf : m.cond.length ≤ fuel) :
    (∃ (m1 : CondMem) (ups : List (Tid × UpResult)),
      cond_broadcast fuel k cur m lock = .ok (m1, ups.map some) ∧
      m1.cond = [] ∧ ups.length = m.cond.length ∧
      (ups.map Prod.fst).Perm m.cond ∧
      (∀ u ∈ ups, u.2 = sema_up (fun t => (k.threads t).priority) cur (m.sema u.1)) ∧
      (∀ t, t ∉ m.cond → m1.sema t = m.sema t) ∧
      (ups.map Prod.fst).Pairwise (fun a b =>
        sema_elem_rank (fun t => (k.threads t).priority) m.sema b ≤
          sema_elem_rank (fun t => (k.threads t).priority) m.sema a) ∧
      ((∀ e ∈ m.cond, (m.sema e).waiters = [e]) →
        (ups.map Prod.fst).Pairwise (fun a b =>
          (k.threads b).priority ≤ (k.threads a).priority))) ∧
    (∀ less, less < m.cond.length →
      cond_broadcast less k cur m lock = .error .out_of_fuel) := by
  refine ⟨?_, fun less hl => cond_broadcast_short k cur lock hheld less m hl⟩
  obtain ⟨m1, ups, hb, hc, hl, hp, hpw, hu, hs⟩ :=
    cond_broadcast_all k cur lock hheld m.cond.length m fuel rfl hnd hf
  refine ⟨m1, ups, hb, hc, hl, hp, hu, ?_, hpw, ?_⟩
  · intro t ht
    rw [hs t]
    simp [ht]
  · intro hall
    refine List.Pairwise.imp_of_mem ?_ hpw
    intro a b ha hb' hab
    have ha2 := hall a ((hp.mem_iff).mp ha)
    have hb2 := hall b ((hp.mem_iff).mp hb')
    simp only [sema_elem_rank, ha2, hb2] at hab
    exact WithBot.coe_le_coe.mp hab

/-- C14, instance: thread 0, holder of lock 0, broadcasts on a condition variable with
three queued elements; the `sema_up`s go to the elements of thread 2 (priority 10), thread
1 (priority 5) and thread 3 (no blocked thread), in that order. -/
theorem c14_cond_broadcast_wakes_all_in_order_witness :
    (c8_kernel.locks 0).holder = some 0 ∧ c14_mem.cond.Nodup ∧ c14_mem.cond.length ≤ 3 ∧
    (cond_broadcast 3 c8_kernel 0 c14_mem 0).toOption.map (fun r =>
      (r.2.map (fun o => o.toList.map Prod.fst), r.1.cond)) = some ([[2], [1], [3]], []) ∧
    ∃ (m1 : CondMem) (ups : List (Tid × UpResult)),
      cond_broadcast 3 c8_kernel 0 c14_mem 0 = .ok (m1, ups.map some) ∧
      m1.cond = [] ∧ ups.length = c14_mem.cond.length ∧
      (ups.map Prod.fst).Perm c14_mem.cond ∧
      (ups.map Prod.fst).Pairwise (fun a b =>
        sema_elem_rank (fun t => (c8_kernel.threads t).priority) c14_mem.sema b ≤
          sema_elem_rank (fun t => (c8_kernel.threads t).priority) c14_mem.sema a) :=
  ⟨by decide, by decide, by decide, by decide,
   (c14_cond_broadcast_wakes_all_in_order c8_kernel 0 c14_mem 0 3
      (by decide) (by decide) (by decide)).1.imp
     (fun _ h => h.imp (fun _ h2 =>
       ⟨h2.1, h2.2.1, h2.2.2.1, h2.2.2.2.1, h2.2.2.2.2.2.2.1⟩))⟩

theorem list_insert_ordered_never_less {α : Type} (less : α → α → Bool) (x : α)
    (h : ∀ y, less x y = false) (ys : List α) : list_insert_ordered less x ys = ys ++ [x] := by
  induction ys with
  | nil => rfl
  | cons y ys ih => simp [list_insert_ordered, h y, ih]

/-- C15: thread 1 does not hold lock 0 (thread 0 does).  Its `cond_wait` and `cond_signal`
fail the assertion, and so does its `cond_broadcast` on a condition variable with a waiter;
but on a condition variable with no waiter its `cond_broadcast` returns normally, as
`cond_broadcast` does on every empty condition variable whoever calls it. -/
theorem c15_cond_broadcast_returns_without_lock :
    lock_held_by_current_thread c8_kernel 1 0 = false ∧
    fault_of (cond_wait 1 c8_kernel 1 c15_mem 0) = some .assertion ∧
    fault_of (cond_signal c8_kernel 1 c15_mem 0) = some .assertion ∧
    fault_of (cond_broadcast 1 c8_kernel 1 c18_mem 0) = some .assertion ∧
    fault_of (cond_broadcast 1 c8_kernel 1 c15_mem 0) = none ∧
    (cond_broadcast 1 c8_kernel 1 c15_mem 0).toOption.map (fun r => (r.1.cond, r.2.length))
      = some ([], 0) ∧
    (∀ (fuel : Nat) (k : Kernel) (cur : Tid) (sema : Tid → Semaphore) (lock : Lid),
      fault_of (cond_broadcast fuel k cur { cond := [], sema := sema } lock) = none) := by
  refine ⟨by decide, by decide, by decide, by decide, by decide, by decide, ?_⟩
  intro fuel k cur sema lock
  cases fuel <;> rfl

/-- C18: the insertion of `cond_wait` always puts the caller's element at the back of
`waiters`, whatever the priorities: its semaphore has just been initialised and has no
waiter, so `compare_sema_func` never ranks it before another element.  When thread 2
(priority 5) waits on the condition variable on which thread 1 (priority 1) waits, the list
becomes thread 1, thread 2: the new element stands after one of lower priority. -/
theorem c18_cond_wait_inserts_at_back :
    (∀ (pri : Tid → Int) (cur : Tid) (m : CondMem),
      (cond_wait_enqueue pri cur m).cond = m.cond ++ [cur]) ∧
    c18_scenario.toOption.map (fun r =>
      (r.2.cond, r.2.cond.map c18_pri, r.2.cond.map (fun e => (r.2.sema e).waiters)))
      = some ([1, 2], [1, 5], [[1], [2]]) := by
  refine ⟨?_, by decide⟩
  intro pri cur m
  unfold cond_wait_enqueue
  apply list_insert_ordered_never_less
  intro y
  simp [compare_sema_func, sema_init]

/-! ## Termination of `donate_priority` -/

/-- With less fuel than the chain is long, the recursion of `donate_priority` is cut. -/
theorem donate_priority_short (T : Tid) :
    ∀ (chain : List (Lid × Tid)) (k : Kernel) (l : Lid) (fuel : Nat),
      WaitChain k l chain → fuel < chain.length →
      donate_priority fuel k T l = .error .out_of_fuel := by
  intro chain
  induction chain with
  | nil => intro k l fuel hc; exact absurd hc (by simp [WaitChain])
  | cons q rest ih =>
    intro k l fuel hc hf
    cases fuel with
    | zero => rfl
    | succ f =>
      have hR := donate_once_raised k T l q.2
      cases rest with
      | nil => simp at hf
      | cons r rest1 =>
        obtain ⟨_, h2, h3, h4⟩ := hc
        have hw : ((donate_once k T l q.2).threads q.2).wait_lock = some r.1 :=
          ((hR.1 q.2).1).trans h3
        have hc2 := waitChain_of_raised _ k _ hR (r :: rest1) r.1 h4
        have hf2 : f < (r :: rest1).length := by simpa using hf
        simp only [donate_priority, h2, hw]
        exact ih (donate_once k T l q.2) r.1 f hc2 hf2

/-- On a chain that never ends the recursion of `donate_priority` uses up any fuel. -/
theorem donate_priority_never_returns (T : Tid) (S : Lid → Prop) :
    ∀ (fuel : Nat) (k : Kernel) (l : Lid),
      (∀ m, S m → ∃ o n, (k.locks m).holder = some o ∧ (k.threads o).wait_lock = some n ∧ S n) →
      S l → donate_priority fuel k T l = .error .out_of_fuel := by
  intro fuel
  induction fuel with
  | zero => intro k l _ _; rfl
  | succ f ih =>
    intro k l hS hl
    obtain ⟨o, n, h1, h2, h3⟩ := hS l hl
    have hR := donate_once_raised k T l o
    have hw : ((donate_once k T l o).threads o).wait_lock = some n := ((hR.1 o).1).trans h2
    simp only [donate_priority, h1, hw]
    refine ih (donate_once k T l o) n ?_ h3
    intro m hm
    obtain ⟨o1, n1, a1, a2, a3⟩ := hS m hm
    exact ⟨o1, n1, ((hR.2 m).1).trans a1, ((hR.1 o1).1).trans a2, a3⟩

/-- C19: after `c19_ops` the wait-for chain from lock 0 is finite and acyclic (lock 0 is
held by thread 1, thread 1 still waits on lock 1, lock 1 has no holder), yet
`donate_priority` on lock 0, called directly or through `lock_acquire` by thread 2, does
not return: its second activation reads the priority of the `NULL` holder of lock 1.  For
the rest: on a chain that ends at an owner waiting on nothing the call returns exactly
when the allowed recursion depth is at least the chain length, and on a chain that never
ends (one that runs into a cycle, as with two threads each waiting on a lock the other
holds) it does not return within any depth. -/
theorem c19_donate_priority_null_holder_on_chain :
    c19_state.map (fun k => (decide ((k.locks 0).holder = some 1),
      decide ((k.threads 1).wait_lock = some 1), (k.locks 1).holder.isNone))
      = some (true, true, true) ∧
    c19_state.map (fun k => fault_of (donate_priority 5 k 2 0)) = some (some .null_deref) ∧
    c19_state.map (fun k => fault_of (lock_acquire 5 k 2 0)) = some (some .null_deref) ∧
    (∀ (k : Kernel) (T : Tid) (L : Lid) (chain : List (Lid × Tid)), WaitChain k L chain →
      (∀ fuel, chain.length ≤ fuel → ∃ k1, donate_priority fuel k T L = .ok k1) ∧
      (∀ fuel, fuel < chain.length → donate_priority fuel k T L = .error .out_of_fuel)) ∧
    (∀ (k : Kernel) (T : Tid) (L : Lid), NeverEnds k L →
      ∀ fuel, donate_priority fuel k T L = .error .out_of_fuel) ∧
    (NeverEnds c19_deadlock 0 ∧
      fault_of (donate_priority 100 c19_deadlock 2 0) = some .out_of_fuel ∧
      fault_of (donate_priority 1 c3_kernel 2 1) = some .out_of_fuel ∧
      fault_of (donate_priority 2 c3_kernel 2 1) = none) := by
  refine ⟨by decide, by decide, by decide, ?_, ?_, ?_, by decide, by decide, by decide⟩
  · intro k T L chain hc
    refine ⟨fun fuel hf => ?_, fun fuel hf => donate_priority_short T chain k L fuel hc hf⟩
    obtain ⟨k1, he, _⟩ :=
      donate_priority_chain T (k.threads T).priority chain k L fuel hc hf rfl
    exact ⟨k1, he⟩
  · intro k T L hne fuel
    obtain ⟨S, hl, hS⟩ := hne
    exact donate_priority_never_returns T S fuel k L hS hl
  · refine ⟨fun m => m = 0 ∨ m = 1, Or.inl rfl, ?_⟩
    intro m hm
    rcases hm with hm | hm
    · subst hm
      exact ⟨0, 1, by decide, by decide, Or.inr rfl⟩
    · subst hm
      exact ⟨1, 0, by decide, by decide, Or.inl rfl⟩

/-! ## The lock's semaphore and holder -/

theorem donate_priority_raised (T : Tid) :
    ∀ (fuel : Nat) (k k1 : Kernel) (l : Lid),
      donate_priority fuel k T l = .ok k1 → Raised (k.threads T).priority k k1 := by
  intro fuel
  induction fuel with
  | zero => intro k k1 l h; simp [donate_priority] at h
  | succ f ih =>
    intro k k1 l h
    unfold donate_priority at h
    cases hh : (k.locks l).holder with
    | none => rw [hh] at h; simp at h
    | some o =>
      rw [hh] at h
      simp only [] at h
      have hR := donate_once_raised k T l o
      cases hw : ((donate_once k T l o).threads o).wait_lock with
      | none =>
        rw [hw] at h
        simp only [Except.ok.injEq] at h
        rw [← h]; exact hR
      | some n =>
        rw [hw] at h
        simp only [] at h
        have h2 := ih (donate_once k T l o) k1 n h
        rw [raised_priority_of_donor _ k _ T hR rfl] at h2
        exact raised_trans _ k _ k1 hR h2

theorem lock_acquire_begin_locks (fuel : Nat) (k k1 : Kernel) (t : Tid) (l : Lid)
    (h : lock_acquire_begin fuel k t l = .ok k1) :
    ∀ m, (k1.locks m).holder = (k.locks m).holder ∧
      (k1.locks m).semaphore = (k.locks m).semaphore := by
  unfold lock_acquire_begin at h
  cases hb : lock_held_by_current_thread k t l with
  | true => rw [hb] at h; simp at h
  | false =>
    rw [hb] at h
    simp only [Bool.false_eq_true, if_false] at h
    cases hh : ((k.setThread t { k.threads t with wait_lock := some l }).locks l).holder with
    | none =>
      rw [hh] at h
      simp only [Except.ok.injEq] at h
      rw [← h]
      intro m; exact ⟨rfl, rfl⟩
    | some o =>
      rw [hh] at h
      simp only [] at h
      have hR := donate_priority_raised t (fuel) _ k1 l h
      intro m
      exact ⟨(hR.2 m).1, (hR.2 m).2.1⟩

theorem lock_acquire_eq_resume (fuel : Nat) (k : Kernel) (t : Tid) (l : Lid) :
    lock_acquire fuel k t l =
      match lock_acquire_begin fuel k t l with
      | .error e => .error e
      | .ok k1 => .ok (lock_acquire_resume k1 t l) := by
  unfold lock_acquire lock_acquire_resume
  cases lock_acquire_begin fuel k t l with
  | error e => rfl
  | ok k1 =>
    simp only []
    cases sema_down (k1.locks l).semaphore t <;> rfl

theorem lock_acquire_resume_lockOk (k : Kernel) (t : Tid) (l m : Lid)
    (h : LockOk (k.locks m)) : LockOk ((lock_acquire_resume k t l).1.locks m) := by
  unfold lock_acquire_resume sema_down
  by_cases hv : (k.locks l).semaphore.value = 0
  · simp only [hv, if_true]
    by_cases hm : m = l
    · subst hm
      simp only [Kernel.setLock, if_true]
      exact ⟨Or.inl rfl, fun _ => rfl⟩
    · simpa [Kernel.setLock, hm] using h
  · simp only [hv, if_false]
    by_cases hm : m = l
    · subst hm
      have h1 : (k.locks m).semaphore.value = 1 := by
        rcases h.1 with h0 | h1
        · exact absurd h0 hv
        · exact h1
      simp only [lock_acquire_finish, Kernel.setLock, Kernel.setThread, if_true]
      exact ⟨Or.inl (by simp [h1]), fun _ => by simp [h1]⟩
    · simpa [lock_acquire_finish, Kernel.setLock, Kernel.setThread, hm] using h

theorem lock_try_acquire_lockOk (k k1 : Kernel) (b : Bool) (t : Tid) (l m : Lid)
    (he : lock_try_acquire k t l = .ok (k1, b)) (h : LockOk (k.locks m)) :
    LockOk (k1.locks m) := by
  unfold lock_try_acquire sema_try_down at he
  cases hb : lock_held_by_current_thread k t l with
  | true => rw [hb] at he; simp at he
  | false =>
    rw [hb] at he
    simp only [Bool.false_eq_true, if_false] at he
    by_cases hv : (k.locks l).semaphore.value > 0
    · simp only [hv, if_true, Except.ok.injEq, Prod.mk.injEq] at he
      rw [← he.1]
      by_cases hm : m = l
      · subst hm
        have h1 : (k.locks m).semaphore.value = 1 := by
          rcases h.1 with h0 | h1
          · omega
          · exact h1
        simp only [Kernel.setLock, if_true]
        exact ⟨Or.inl (by simp [h1]), fun _ => by simp [h1]⟩
      · simpa [Kernel.setLock, hm] using h
    · simp only [hv, if_false, Bool.false_eq_true, Except.ok.injEq, Prod.mk.injEq] at he
      rw [← he.1]
      by_cases hm : m = l
      · subst hm
        simpa [Kernel.setLock] using h
      · simpa [Kernel.setLock, hm] using h

/-- On a lock with a holder `priority_back` returns and touches only the holder's
`priority` and `init_priority`. -/
theorem priority_back_frame (k : Kernel) (l : Lid) (o : Tid)
    (hh : (k.locks l).holder = some o) :
    ∃ k1, priority_back k l = .ok k1 ∧ (∀ m, k1.locks m = k.locks m) ∧
      (∀ t, (k1.threads t).holding_locks = (k.threads t).holding_locks ∧
        (k1.threads t).wait_lock = (k.threads t).wait_lock) := by
  unfold priority_back
  rw [hh]
  simp only []
  by_cases hi : (k.threads o).init_priority = -1
  · exact ⟨k, by simp [hi], fun _ => rfl, fun _ => ⟨rfl, rfl⟩⟩
  · simp only [hi, if_false]
    cases hl : (k.threads o).holding_locks with
    | nil =>
      refine ⟨_, rfl, fun _ => rfl, fun t => ?_⟩
      by_cases ht : t = o
      · subst ht; simp [Kernel.setThread, hl]
      · simp [Kernel.setThread, ht]
    | cons first rest =>
      refine ⟨_, rfl, fun _ => rfl, fun t => ?_⟩
      by_cases ht : t = o
      · subst ht; simp [Kernel.setThread, hl]
      · simp [Kernel.setThread, ht]

/-- The outcome of `lock_release` called by the holder. -/
theorem lock_release_by_holder (k : Kernel) (cur : Tid) (l : Lid)
    (hh : (k.locks l).holder = some cur) (hin : l ∈ (k.threads cur).holding_locks) :
    ∃ k1, lock_release k cur l = .ok k1 ∧
      (k1.locks l).holder = none ∧
      (k1.locks l).semaphore.value = ((k.locks l).semaphore.value + 1) % UINT_MOD ∧
      (k1.locks l).max_val = (k.locks l).max_val ∧
      (∀ m, m ≠ l → k1.locks m = k.locks m) ∧
      (∀ t, (k1.threads t).holding_locks = ((k.threads t).holding_locks).erase l) := by
  have hheld : lock_held_by_current_thread k cur l = true := by
    simp [lock_held_by_current_thread, hh]
  have hlr : list_remove k l = .ok (unlink k l) := by
    simp [list_remove, hh, hin]
  have hrh : ((unlink k l).locks l).holder = some cur := hh
  obtain ⟨k2, hpb, hlocks, hthreads⟩ := priority_back_frame (unlink k l) l cur hrh
  simp only [lock_release, lock_release_begin, hheld, hlr, hpb, if_true]
  refine ⟨_, rfl, ?_, ?_, ?_, ?_, ?_⟩
  · simp [lock_release_finish, Kernel.setLock]
  · simp only [lock_release_finish, Kernel.setLock, if_true]
    rw [sema_up_value, hlocks l]
    rfl
  · simp only [lock_release_finish, Kernel.setLock, if_true]
    rw [hlocks l]
    rfl
  · intro m hm
    simp only [lock_release_finish, Kernel.setLock, hm, if_false]
    rw [hlocks m]
    rfl
  · intro t
    simp only [lock_release_finish, Kernel.setLock]
    rw [(hthreads t).1]
    rfl

theorem lock_release_not_holder (k : Kernel) (cur : Tid) (l : Lid)
    (hh : (k.locks l).holder ≠ some cur) : lock_release k cur l = .error .assertion := by
  have hheld : lock_held_by_current_thread k cur l = false := by
    simp [lock_held_by_current_thread, hh]
  simp [lock_release, lock_release_begin, hheld]

/-- Called by the holder of a lock whose element is in no list, `lock_release` ends in
`list_remove`. -/
theorem lock_release_unlinked (k : Kernel) (cur : Tid) (l : Lid)
    (hh : (k.locks l).holder = some cur) (hin : l ∉ (k.threads cur).holding_locks) :
    lock_release k cur l = .error .unlinked_elem := by
  have hheld : lock_held_by_current_thread k cur l = true := by
    simp [lock_held_by_current_thread, hh]
  have hlr : list_remove k l = .error .unlinked_elem := by
    simp [list_remove, hh, hin]
  simp only [lock_release, lock_release_begin, hheld, hlr, if_true]

theorem lock_release_lockOk (k k1 : Kernel) (t : Tid) (l m : Lid)
    (he : lock_release k t l = .ok k1) (h : LockOk (k.locks m)) : LockOk (k1.locks m) := by
  by_cases hh : (k.locks l).holder = some t
  · by_cases hin : l ∈ (k.threads t).holding_locks
    · obtain ⟨k2, he2, a1, a2, _, a4, _⟩ := lock_release_by_holder k t l hh hin
      rw [he2] at he
      simp only [Except.ok.injEq] at he
      subst he
      by_cases hm : m = l
      · subst hm
        have h0 : (k.locks m).semaphore.value = 0 := h.2 (by rw [hh]; simp)
        rw [h0] at a2
        have a3 : (k2.locks m).semaphore.value = 1 := by rw [a2]; decide
        exact ⟨Or.inr a3, fun hne => absurd a1 hne⟩
      · rw [a4 m hm]; exact h
    · rw [lock_release_unlinked k t l hh hin] at he
      simp at he
  · rw [lock_release_not_holder k t l hh] at he
    simp at he

theorem apply_op_lockOk (fuel : Nat) (k k1 : Kernel) (op : LockOp) (m : Lid)
    (he : apply_op fuel k op = some k1) (h : LockOk (k.locks m)) : LockOk (k1.locks m) := by
  cases op with
  | init l =>
    simp only [apply_op, Option.some.injEq] at he
    subst he
    by_cases hm : m = l
    · subst hm
      simp only [lock_init, Kernel.setLock, if_true, sema_init]
      exact ⟨Or.inr rfl, fun hne => absurd rfl hne⟩
    · simpa [lock_init, Kernel.setLock, hm] using h
  | acquire t l =>
    simp only [apply_op, lock_acquire_eq_resume] at he
    cases hb : lock_acquire_begin fuel k t l with
    | error e => rw [hb] at he; simp at he
    | ok k2 =>
      rw [hb] at he
      simp only [Option.some.injEq] at he
      subst he
      have hfr := lock_acquire_begin_locks fuel k k2 t l hb m
      have h2 : LockOk (k2.locks m) := by
        unfold LockOk
        rw [hfr.1, hfr.2]
        exact h
      exact lock_acquire_resume_lockOk k2 t l m h2
  | wake t l =>
    simp only [apply_op, Option.some.injEq] at he
    subst he
    exact lock_acquire_resume_lockOk k t l m h
  | try_acquire t l =>
    simp only [apply_op] at he
    cases hb : lock_try_acquire k t l with
    | error e => rw [hb] at he; simp at he
    | ok r =>
      rw [hb] at he
      simp only [Option.some.injEq] at he
      subst he
      exact lock_try_acquire_lockOk k r.1 r.2 t l m hb h
  | release t l =>
    simp only [apply_op] at he
    cases hb : lock_release k t l with
    | error e => rw [hb] at he; simp at he
    | ok k2 =>
      rw [hb] at he
      simp only [Option.some.injEq] at he
      subst he
      exact lock_release_lockOk k k2 t l m hb h

theorem run_ops_lockOk (fuel : Nat) (m : Lid) :
    ∀ (ops : List LockOp) (k k1 : Kernel),
      run_ops fuel k ops = some k1 → LockOk (k.locks m) → LockOk (k1.locks m) := by
  intro ops
  induction ops with
  | nil =>
    intro k k1 he h
    simp only [run_ops, Option.some.injEq] at he
    subst he; exact h
  | cons op ops ih =>
    intro k k1 he h
    simp only [run_ops] at he
    cases ha : apply_op fuel k op with
    | none => rw [ha] at he; simp at he
    | some k2 =>
      rw [ha] at he
      exact ih k2 k1 he (apply_op_lockOk fuel k k2 op m ha h)

theorem lock_init_lockOk (k : Kernel) (l : Lid) : LockOk ((lock_init k l).locks l) := by
  simp only [lock_init, Kernel.setLock, if_true, sema_init]
  exact ⟨Or.inr rfl, fun hne => absurd rfl hne⟩

/-- C16: thread 0 takes the freshly initialised lock 0 with `lock_try_acquire` (which
returns true and makes it the holder) and calls `lock_release`: the call passes its
assertion but does not return, it ends in `list_remove` on the lock's element, which
`lock_try_acquire` never pushed on `holding_locks`.  For the rest, `lock_release` fails its
assertion exactly when the caller is not the holder, and called by the holder of a lock
that is in its `holding_locks` it returns with no holder, the lock erased from
`holding_locks` and the value incremented as an `unsigned` (by exactly 1 in every state
reached from `lock_init` through the lock calls). -/
theorem c16_lock_release_after_try_acquire_faults :
    c9_scenario.toOption.map (fun r => (r.2, decide ((r.1.locks 0).holder = some 0),
      (r.1.threads 0).holding_locks)) = some (true, true, []) ∧
    fault_of c16_scenario = some .unlinked_elem ∧
    (∀ (k : Kernel) (cur : Tid) (lock : Lid),
      (k.locks lock).holder ≠ some cur → lock_release k cur lock = .error .assertion) ∧
    (∀ (k : Kernel) (cur : Tid) (lock : Lid),
      (k.locks lock).holder = some cur → lock ∉ (k.threads cur).holding_locks →
      lock_release k cur lock = .error .unlinked_elem) ∧
    (∀ (k : Kernel) (cur : Tid) (lock : Lid),
      (k.locks lock).holder = some cur → lock ∈ (k.threads cur).holding_locks →
      ∃ k1, lock_release k cur lock = .ok k1 ∧
        (k1.locks lock).holder = none ∧
        (k1.threads cur).holding_locks = ((k.threads cur).holding_locks).erase lock ∧
        (k1.locks lock).semaphore.value =
          ((k.locks lock).semaphore.value + 1) % UINT_MOD ∧
        (∀ (fuel : Nat) (k0 : Kernel) (ops : List LockOp),
          run_ops fuel (lock_init k0 lock) ops = some k →
          (k1.locks lock).semaphore.value = (k.locks lock).semaphore.value + 1)) := by
  refine ⟨by decide, by decide, fun k cur lock hh => lock_release_not_holder k cur lock hh,
    fun k cur lock hh hin => lock_release_unlinked k cur lock hh hin, ?_⟩
  intro k cur lock hh hin
  obtain ⟨k1, he, a1, a2, _, _, a5⟩ := lock_release_by_holder k cur lock hh hin
  refine ⟨k1, he, a1, a5 cur, a2, ?_⟩
  intro fuel k0 ops hr
  have hok := run_ops_lockOk fuel lock ops (lock_init k0 lock) k hr (lock_init_lockOk k0 lock)
  have h0 : (k.locks lock).semaphore.value = 0 := hok.2 (by rw [hh]; simp)
  rw [a2, h0]
  decide

/-! ## The value of a semaphore in use -/

theorem nodup_length_le_of_lt (n : Nat) (l : List Nat) (hnd : l.Nodup)
    (hlt : ∀ t ∈ l, t < n) : l.length ≤ n := by
  have hsub : l.toFinset ⊆ Finset.range n := by
    intro x hx
    exact Finset.mem_range.mpr (hlt x (List.mem_toFinset.mp hx))
  have hcard := Finset.card_le_card hsub
  rw [List.toFinset_card_of_nodup hnd, Finset.card_range] at hcard
  exact hcard

theorem semaOk_down_result (n : Nat) (s : SemaSys) (t : Tid) (wk : List Tid)
    (h : SemaOk n s) (ht : t < n) (htw : t ∉ s.sema.waiters) (htk : t ∉ wk)
    (hnd : wk.Nodup) (hsub : ∀ x ∈ wk, x ∈ s.woken)
    (hlen : s.sema.waiters ≠ [] → 0 < s.sema.value → s.sema.value - 1 ≤ wk.length) :
    SemaOk n { s with sema := (sema_down s.sema t).sema, woken := wk } := by
  obtain ⟨h1, _, h3, h4, h5, _⟩ := h
  unfold sema_down
  by_cases hv : s.sema.value = 0
  · simp only [hv, if_true, DownResult.sema]
    refine ⟨?_, hnd, ?_, ?_, fun x hx => h5 x (hsub x hx), fun _ => Nat.zero_le _⟩
    · rw [List.nodup_append]
      refine ⟨h1, List.nodup_singleton t, ?_⟩
      intro a ha hb
      simp only [List.mem_singleton] at hb
      exact htw (hb ▸ ha)
    · intro x hx
      rcases List.mem_append.mp hx with hx | hx
      · exact fun hk => h3 x hx (hsub x hk)
      · simp only [List.mem_singleton] at hx
        rw [hx]; exact htk
    · intro x hx
      rcases List.mem_append.mp hx with hx | hx
      · exact h4 x hx
      · simp only [List.mem_singleton] at hx
        rw [hx]; exact ht
  · simp only [hv, if_false, DownResult.sema]
    refine ⟨h1, hnd, fun x hx hk => h3 x hx (hsub x hk), h4, fun x hx => h5 x (hsub x hx), ?_⟩
    intro hne
    exact hlen hne (Nat.pos_of_ne_zero hv)

theorem sema_exec_ok (n : Nat) (hn : n + 1 < UINT_MOD) (s s1 : SemaSys) (op : SemaOp)
    (he : sema_exec n s op = some s1) (h : SemaOk n s) : SemaOk n s1 := by
  have hwl : s.woken.length ≤ n := nodup_length_le_of_lt n s.woken h.2.1 h.2.2.2.2.1
  cases op with
  | down t =>
    simp only [sema_exec] at he
    by_cases hc : t < n ∧ t ∉ s.sema.waiters ∧ t ∉ s.woken
    · rw [if_pos hc] at he
      simp only [Option.some.injEq] at he
      subst he
      refine semaOk_down_result n s t s.woken h hc.1 hc.2.1 hc.2.2 h.2.1 (fun x hx => hx) ?_
      intro hne _
      exact le_trans (Nat.sub_le _ _) (h.2.2.2.2.2 hne)
    · rw [if_neg hc] at he
      simp at he
  | resume t =>
    simp only [sema_exec] at he
    by_cases hc : t ∈ s.woken
    · rw [if_pos hc] at he
      simp only [Option.some.injEq] at he
      subst he
      have htw : t ∉ s.sema.waiters := fun hw => h.2.2.1 t hw hc
      refine semaOk_down_result n s t (s.woken.erase t) h (h.2.2.2.2.1 t hc) htw
        (List.Nodup.not_mem_erase h.2.1) (List.Nodup.erase t h.2.1)
        (fun x hx => List.mem_of_mem_erase hx) ?_
      intro hne hpos
      have := h.2.2.2.2.2 hne
      rw [List.length_erase_of_mem hc]
      omega
    · rw [if_neg hc] at he
      simp at he
  | up cur =>
    simp only [sema_exec, Option.some.injEq] at he
    subst he
    obtain ⟨h1, h2, h3, h4, h5, h6⟩ := h
    cases hw : s.sema.waiters with
    | nil =>
      have hs : s.sema = { value := s.sema.value, waiters := [] } := by
        rw [← hw]
      rw [hs, sema_up_no_waiter]
      exact ⟨List.nodup_nil, by simpa using h2, by simp, by simp, by simpa using h5,
        fun hne => absurd rfl hne⟩
    | cons w ws =>
      have hs : s.sema = { value := s.sema.value, waiters := w :: ws } := by
        rw [← hw]
      obtain ⟨t, rest, _, hperm, hu⟩ := sema_up_some_waiter s.pri cur s.sema.value w ws
      rw [hs, hu]
      rw [← hw] at hperm
      have hnd : (t :: rest).Nodup := (List.Perm.nodup_iff hperm).mpr h1
      have htin : t ∈ s.sema.waiters := (hperm.mem_iff).mp (List.mem_cons_self t rest)
      have hrin : ∀ x ∈ rest, x ∈ s.sema.waiters :=
        fun x hx => (hperm.mem_iff).mp (List.mem_cons_of_mem t hx)
      have hv : s.sema.value ≤ s.woken.length := h6 (by rw [hw]; simp)
      refine ⟨(List.nodup_cons.mp hnd).2, ?_, ?_, fun x hx => h4 x (hrin x hx), ?_, ?_⟩
      · simp only [Option.toList, List.singleton_append]
        exact List.nodup_cons.mpr ⟨h3 t htin, h2⟩
      · intro x hx hk
        simp only [Option.toList, List.singleton_append, List.mem_cons] at hk
        rcases hk with hk | hk
        · exact (List.nodup_cons.mp hnd).1 (hk ▸ hx)
        · exact h3 x (hrin x hx) hk
      · intro x hx
        simp only [Option.toList, List.singleton_append, List.mem_cons] at hx
        rcases hx with hx | hx
        · rw [hx]; exact h4 t htin
        · exact h5 x hx
      · intro _
        simp only [Option.toList, List.singleton_append, List.length_cons]
        have hlt : s.sema.value + 1 < UINT_MOD := by omega
        rw [Nat.mod_eq_of_lt hlt]
        omega
  | set_priority t p =>
    simp only [sema_exec, Option.some.injEq] at he
    subst he
    exact h

theorem sema_run_ok (n : Nat) (hn : n + 1 < UINT_MOD) :
    ∀ (ops : List SemaOp) (s s1 : SemaSys),
      sema_run n s ops = some s1 → SemaOk n s → SemaOk n s1 := by
  intro ops
  induction ops with
  | nil =>
    intro s s1 he h
    simp only [sema_run, Option.some.injEq] at he
    subst he; exact h
  | cons op ops ih =>
    intro s s1 he h
    simp only [sema_run] at he
    cases ha : sema_exec n s op with
    | none => rw [ha] at he; simp at he
    | some s2 =>
      rw [ha] at he
      exact ih s2 s1 he (sema_exec_ok n hn s s2 op ha h)

theorem sema_boot_ok (n value : Nat) (pri : Tid → Int) : SemaOk n (sema_boot value pri) :=
  ⟨List.nodup_nil, List.nodup_nil, fun _ h => absurd h (List.not_mem_nil _),
    fun _ h => absurd h (List.not_mem_nil _), fun _ h => absurd h (List.not_mem_nil _),
    fun hne => absurd rfl hne⟩

/-- In a state that the events reach with fewer than `2 ^ 32 - 1` threads, a semaphore with
a queued thread has a value below the largest `unsigned`. -/
theorem sema_run_value_lt (n : Nat) (hn : n + 1 < UINT_MOD) (value : Nat) (pri : Tid → Int)
    (ops : List SemaOp) (st : SemaSys)
    (hr : sema_run n (sema_boot value pri) ops = some st) (hne : st.sema.waiters ≠ []) :
    st.sema.value + 1 < UINT_MOD := by
  have hok := sema_run_ok n hn ops _ st hr (sema_boot_ok n value pri)
  have hwl : st.woken.length ≤ n := nodup_length_le_of_lt n st.woken hok.2.1 hok.2.2.2.2.1
  have := hok.2.2.2.2.2 hne
  omega

/-! ## Wake-up order of `sema_up` -/

/-- C2 (as stated, refuted): threads 1, 2, 3 (priorities 1, 5, 9) block on the semaphore of
lock 0 in that order; the `sema_up` of the first release wakes thread 3 and leaves the list
sorted as thread 2, thread 1; thread 1 then receives priority 5 by donation.  In that state
threads 1 and 2 share the highest priority, thread 1 was enqueued first, and `sema_up`
(directly, or inside the holder's `lock_release`) unblocks thread 2. -/
theorem c2_later_enqueued_woken_first :
    (run_ops 2 (boot_kernel c13_pri) c2_enqueue_ops).map
      (fun k => (k.locks 0).semaphore.waiters) = some [1, 2, 3] ∧
    (run_ops 2 (boot_kernel c13_pri) c2_ops).map (fun k =>
      ((k.locks 0).semaphore.waiters, (k.threads 1).priority, (k.threads 2).priority))
      = some ([2, 1], 5, 5) ∧
    (run_ops 2 (boot_kernel c13_pri) c2_ops).map (fun k =>
      (sema_up (fun t => (k.threads t).priority) 3 (k.locks 0).semaphore).unblocked.toList)
      = some [2] ∧
    (run_ops 2 (boot_kernel c13_pri) c2_ops).map (fun k =>
      (lock_release_begin k 3 0).toOption.map (fun r => r.2.1.toList)) = some (some [2]) := by
  decide

/-- C2 (amended): on a semaphore with a non-empty `waiters` list, `sema_up` unblocks exactly
one thread, one whose priority at the time of the call is the highest among the waiters,
and among those of highest priority the one that stands first in `waiters` as it is at the
call; the other waiters stay queued; `value` is incremented as an `unsigned`, which is an
increase by exactly 1 in every state that `sema_init`, `sema_down`, `sema_up` and priority
changes reach with fewer than `2 ^ 32 - 1` threads.  For threads of priorities 1, 5, 3
enqueued in that order, three successive calls unblock the priority-5, then the priority-3,
then the priority-1 thread. -/
theorem c2_sema_up_wakes_first_highest (pri : Tid → Int) (cur : Tid) (s : Semaphore)
    (hne : s.waiters ≠ []) :
    (∃ w, (sema_up pri cur s).unblocked = some w ∧ FirstMax pri s.waiters w ∧
        (w :: (sema_up pri cur s).sema.waiters).Perm s.waiters) ∧
    (sema_up pri cur s).sema.value = (s.value + 1) % UINT_MOD ∧
    (s.value + 1 < UINT_MOD → (sema_up pri cur s).sema.value = s.value + 1) ∧
    (∀ (n value : Nat) (pri0 : Tid → Int) (ops : List SemaOp) (st : SemaSys),
      n + 1 < UINT_MOD → sema_run n (sema_boot value pri0) ops = some st → st.sema = s →
      (sema_up pri cur s).sema.value = s.value + 1) ∧
    three_ups c2_pri cur { value := 0, waiters := [0, 1, 2] } = [some 1, some 2, some 0] := by
  have hv := sema_up_value pri cur s
  obtain ⟨v, ws⟩ := s
  cases ws with
  | nil => exact absurd rfl hne
  | cons w ws =>
    obtain ⟨t, rest, hf, hp, hu⟩ := sema_up_some_waiter pri cur v w ws
    refine ⟨⟨t, by rw [hu], hf, by rw [hu]; exact hp⟩, hv, ?_, ?_, rfl⟩
    · intro hlt
      rw [hv]
      exact Nat.mod_eq_of_lt hlt
    · intro n value pri0 ops st hn hr hst
      have hlt := sema_run_value_lt n hn value pri0 ops st hr (by rw [hst]; exact hne)
      rw [hst] at hlt
      rw [hv]
      exact Nat.mod_eq_of_lt hlt

/-- C2, instance: threads 0, 1, 2 of priorities 1, 5, 3 wait; thread 1 is woken first and
the value goes from 0 to 1. -/
theorem c2_sema_up_wakes_first_highest_witness :
    ({ value := 0, waiters := [0, 1, 2] } : Semaphore).waiters ≠ [] ∧
    (sema_up c2_pri 3 { value := 0, waiters := [0, 1, 2] }).unblocked.toList = [1] ∧
    (sema_up c2_pri 3 { value := 0, waiters := [0, 1, 2] }).sema.value = 1 :=
  ⟨by decide, by decide,
   (c2_sema_up_wakes_first_highest c2_pri 3 { value := 0, waiters := [0, 1, 2] }
      (by decide)).2.2.1 (by decide)⟩

end Synch
